import Mathlib

/-!
Verification development for `tools/postgres_settings.py`.

The Python program is shallowly embedded below:

* Python string parsing of `int(...)` / `float(...)` is modelled by
  `pyInt` / `pyFloatOk` (ASCII digits, optional sign, grouping
  underscores, `inf` / `infinity` / `nan`; non-ASCII digit forms are
  not modelled because they cannot occur in `pg_settings` values).
* Python dictionaries are modelled as association lists with
  first-match lookup (`List.lookup`) and replace-or-append insertion
  (`dictInsert`), which matches CPython's insertion-ordered dicts.
* Python's `sorted` on strings is code-point lexicographic; it is
  modelled by `pySorted`, an insertion sort by the code-point order
  `StrLe`.
* Exceptions that the program does not catch are modelled by
  `Except.error`; messages printed to stderr with `file=sys.stderr`
  and then `continue` are modelled as accumulated warning lists.
-/

/-! ### Code-point order on strings (Python string comparison) -/

/-- Code-point lexicographic `≤` on character lists, as Python compares
strings. -/
def chListLe : List Char → List Char → Bool
  | [], _ => true
  | _ :: _, [] => false
  | a :: as, b :: bs =>
    if a.toNat < b.toNat then true
    else if b.toNat < a.toNat then false
    else chListLe as bs

/-- Python string `<=`: code-point lexicographic. -/
def strLe (a b : String) : Bool := chListLe a.toList b.toList

/-- The relation form of `strLe`, for use with the sorting library. -/
def StrLe (a b : String) : Prop := strLe a b = true

/-- Strict code-point order on strings. -/
def StrLt (a b : String) : Prop := StrLe a b ∧ a ≠ b

instance : DecidableRel StrLe := fun a b => by
  unfold StrLe; exact inferInstance

theorem chListLe_total (as bs : List Char) :
    chListLe as bs = true ∨ chListLe bs as = true := by
  induction as generalizing bs with
  | nil => left; rfl
  | cons a as ih =>
    cases bs with
    | nil => right; rfl
    | cons b bs =>
      by_cases hab : a.toNat < b.toNat
      · left; simp [chListLe, hab]
      · by_cases hba : b.toNat < a.toNat
        · right; simp [chListLe, hba]
        · have := ih bs
          rcases this with h | h
          · left; simpa [chListLe, hab, hba] using h
          · right; simpa [chListLe, hab, hba] using h

theorem chListLe_trans {as bs cs : List Char}
    (h1 : chListLe as bs = true) (h2 : chListLe bs cs = true) :
    chListLe as cs = true := by
  induction as generalizing bs cs with
  | nil => rfl
  | cons a as ih =>
    cases bs with
    | nil => simp [chListLe] at h1
    | cons b bs =>
      cases cs with
      | nil => simp [chListLe] at h2
      | cons c cs =>
        simp only [chListLe] at h1 h2 ⊢
        rcases Nat.lt_trichotomy a.toNat b.toNat with hab | hab | hab
        · rcases Nat.lt_trichotomy b.toNat c.toNat with hbc | hbc | hbc
          · have hac : a.toNat < c.toNat := Nat.lt_trans hab hbc
            simp [hac]
          · have hac : a.toNat < c.toNat := by omega
            simp [hac]
          · have h' : ¬ b.toNat < c.toNat := by omega
            simp [h', hbc] at h2
        · rcases Nat.lt_trichotomy b.toNat c.toNat with hbc | hbc | hbc
          · have hac : a.toNat < c.toNat := by omega
            simp [hac]
          · have hac : ¬ a.toNat < c.toNat := by omega
            have hca : ¬ c.toNat < a.toNat := by omega
            have h1' : chListLe as bs = true := by
              have hna : ¬ a.toNat < b.toNat := by omega
              have hnb : ¬ b.toNat < a.toNat := by omega
              simpa [hna, hnb] using h1
            have h2' : chListLe bs cs = true := by
              have hnb : ¬ b.toNat < c.toNat := by omega
              have hnc : ¬ c.toNat < b.toNat := by omega
              simpa [hnb, hnc] using h2
            simp only [hac, hca, if_false]
            exact ih h1' h2'
          · have h' : ¬ b.toNat < c.toNat := by omega
            simp [h', hbc] at h2
        · have h' : ¬ a.toNat < b.toNat := by omega
          simp [h', hab] at h1

theorem char_toNat_inj {a b : Char} (h : a.toNat = b.toNat) : a = b :=
  Char.eq_of_val_eq (UInt32.ext h)

theorem chListLe_antisymm {as bs : List Char}
    (h1 : chListLe as bs = true) (h2 : chListLe bs as = true) : as = bs := by
  induction as generalizing bs with
  | nil =>
    cases bs with
    | nil => rfl
    | cons b bs => simp [chListLe] at h2
  | cons a as ih =>
    cases bs with
    | nil => simp [chListLe] at h1
    | cons b bs =>
      simp only [chListLe] at h1 h2
      by_cases hab : a.toNat < b.toNat
      · have : ¬ b.toNat < a.toNat := by omega
        simp [hab, this] at h2
      · by_cases hba : b.toNat < a.toNat
        · simp [hab, hba] at h1
        · have hab' : a = b := char_toNat_inj (by omega)
          subst hab'
          simp [hab] at h1 h2
          rw [ih h1 h2]

instance : IsTotal String StrLe :=
  ⟨fun a b => chListLe_total a.toList b.toList⟩

instance : IsTrans String StrLe :=
  ⟨fun _ _ _ h1 h2 => chListLe_trans h1 h2⟩

theorem strLe_antisymm {a b : String} (h1 : StrLe a b) (h2 : StrLe b a) :
    a = b := by
  have h := chListLe_antisymm h1 h2
  cases a; cases b; exact congrArg String.mk h

instance : IsAntisymm String StrLe := ⟨fun _ _ h1 h2 => strLe_antisymm h1 h2⟩

instance : IsRefl String StrLe := ⟨fun a => by
  rcases chListLe_total a.toList a.toList with h | h <;> exact h⟩

/-- Model of Python `sorted` on a list of strings. -/
def pySorted (l : List String) : List String := List.insertionSort StrLe l

/-! ### Python `int()` and `float()` string parsing -/

/-- The six ASCII whitespace characters stripped by `str.strip()`. -/
def isPyWhitespace (c : Char) : Bool :=
  c = ' ' || c = '\t' || c = '\n' || c = '\x0b' || c = '\x0c' || c = '\r'

/-- Python `str.strip()` on a character list. -/
def pyStrip (l : List Char) : List Char :=
  ((l.dropWhile isPyWhitespace).reverse.dropWhile isPyWhitespace).reverse

/-- Parses a nonempty ASCII digit run with optional single grouping
underscores between digits (Python numeric-literal digit groups).
`lastDigit` records whether the previous character was a digit. -/
def pyDigits : List Char → Nat → Bool → Option Nat
  | [], acc, lastDigit => if lastDigit then some acc else none
  | c :: rest, acc, lastDigit =>
    if c.isDigit then pyDigits rest (acc * 10 + (c.toNat - '0'.toNat)) true
    else if c = '_' then
      (if lastDigit then pyDigits rest acc false else none)
    else none

/-- Model of Python `int(s)` for a string argument (base 10):
strip whitespace, optional sign, digit run. Returns `none` where
Python raises `ValueError`. -/
def pyInt (s : String) : Option Int :=
  match pyStrip s.toList with
  | '+' :: rest => (pyDigits rest 0 false).map Int.ofNat
  | '-' :: rest => (pyDigits rest 0 false).map (fun n => -(Int.ofNat n))
  | l => (pyDigits l 0 false).map Int.ofNat

/-- Splits at the first dot, if any. -/
def splitDot : List Char → List Char × Option (List Char)
  | [] => ([], none)
  | '.' :: rest => ([], some rest)
  | c :: rest =>
    let p := splitDot rest
    (c :: p.1, p.2)

/-- Splits at the first `e`, if any (input already lowercased). -/
def splitE : List Char → List Char × Option (List Char)
  | [] => ([], none)
  | 'e' :: rest => ([], some rest)
  | c :: rest =>
    let p := splitE rest
    (c :: p.1, p.2)

def pyFloatDigitsOk (l : List Char) : Bool := (pyDigits l 0 false).isSome

def pyExpOk (l : List Char) : Bool :=
  match l with
  | '+' :: rest => pyFloatDigitsOk rest
  | '-' :: rest => pyFloatDigitsOk rest
  | _ => pyFloatDigitsOk l

def pyMantissaOk (l : List Char) : Bool :=
  match splitDot l with
  | (intPart, none) => pyFloatDigitsOk intPart
  | (intPart, some fracPart) =>
    if intPart = [] then pyFloatDigitsOk fracPart
    else if fracPart = [] then pyFloatDigitsOk intPart
    else pyFloatDigitsOk intPart && pyFloatDigitsOk fracPart

/-- Whether Python `float(s)` succeeds on the string `s`. The numeric
value itself is not modelled (no claim depends on it); a successfully
parsed float is represented below by its source string. -/
def pyFloatOk (s : String) : Bool :=
  let l := (pyStrip s.toList).map Char.toLower
  let body := match l with
    | '+' :: r => r
    | '-' :: r => r
    | r => r
  if body = ['i', 'n', 'f'] || body = ['i', 'n', 'f', 'i', 'n', 'i', 't', 'y']
      || body = ['n', 'a', 'n'] then true
  else
    match splitE body with
    | (m, none) => pyMantissaOk m
    | (m, some ex) => pyMantissaOk m && pyExpOk ex

/-- Python `int(s)` lifted to `Except`, with the `ValueError` message. -/
def pyIntE (s : String) : Except String Int :=
  match pyInt s with
  | some n => .ok n
  | none =>
    .error ("invalid literal for int() with base 10: \x27" ++ s ++ "\x27")

/-- Python `float(s)` lifted to `Except`; a successful parse is
represented by the source string. -/
def pyFloatE (s : String) : Except String String :=
  if pyFloatOk s then .ok s
  else .error ("could not convert string to float: \x27" ++ s ++ "\x27")

/-! ### Data model

`SettingData` embeds one row of the `pg_settings` query result
(line 14 of the source): `short_desc`, `vartype`, `unit`, `min_val`,
`max_val`, `enumvals`, `reset_val`; the `name` column is the key of the
settings mapping. Nullable columns are `Option`s. -/

structure SettingData where
  short_desc : String
  vartype : String
  unit : Option String
  min_val : Option String
  max_val : Option String
  enumvals : Option (List String)
  reset_val : Option String
deriving DecidableEq

/-- JSON/YAML scalar values placed in a generated property. A Python
float is represented by the string it was parsed from (no claim
depends on its numeric value, only on parse success and type). -/
inductive JsonValue
  | bool (b : Bool)
  | int (n : Int)
  | real (src : String)
  | str (s : String)
  | strList (xs : List String)
deriving DecidableEq

/-- A generated property: a Python dict from key to value, in insertion
order. -/
abbrev PropDict := List (String × JsonValue)

/-- Python dict assignment `d[k] = v`: replace in place if the key is
present, else append. -/
def dictInsert {α : Type} : List (String × α) → String → α → List (String × α)
  | [], k, v => [(k, v)]
  | (k', v') :: rest, k, v =>
    if k' = k then (k, v) :: rest else (k', v') :: dictInsert rest k v

/-- The settings mapping returned by `get_postgres_settings`: a dict
from setting name to row, modelled as an association list with unique
keys in practice (`List.lookup` takes the first match, as a dict
lookup does). -/
abbrev DB := List (String × SettingData)

/-! ### Schema Generator (`generate_schema_yaml`, lines 40-111) -/

/-- The fixed `type_mapping` table with its `.get(pg_type, 'string')`
fallback (lines 48-54, 71). -/
def type_mapping (pg_type : String) : String :=
  if pg_type = "bool" then "boolean"
  else if pg_type = "integer" then "integer"
  else if pg_type = "real" then "number"
  else if pg_type = "string" then "string"
  else if pg_type = "enum" then "string"
  else "string"

/-- Lines 74-76: the description, with the unit appended when the
`unit` field is truthy (Python: neither `None` nor the empty string). -/
def descriptionOf (sd : SettingData) : String :=
  match sd.unit with
  | some u => if u = "" then sd.short_desc
              else sd.short_desc ++ " (Unit: " ++ u ++ ")"
  | none => sd.short_desc

/-- The warning of line 92, without the trailing Python exception text
(which only restates the failed conversion). -/
def convWarn (reset_val setting_name : String) : String :=
  "Warning: Could not convert reset_val \x27" ++ reset_val ++
    "\x27 for setting \x27" ++ setting_name ++ "\x27."

/-- Lines 80-92: the `default` field. The `try` block catches the
conversion's `ValueError`, emits the warning and leaves the prop
unchanged. Returns the updated prop and the emitted warnings. -/
def defaultStep (setting_name : String) (sd : SettingData)
    (prop : PropDict) : PropDict × List String :=
  match sd.reset_val with
  | none => (prop, [])
  | some rv =>
    if sd.vartype = "bool" then
      (dictInsert prop "default" (.bool (rv == "on")), [])
    else if sd.vartype = "integer" then
      match pyInt rv with
      | some n => (dictInsert prop "default" (.int n), [])
      | none => (prop, [convWarn rv setting_name])
    else if sd.vartype = "real" then
      if pyFloatOk rv then (dictInsert prop "default" (.real rv), [])
      else (prop, [convWarn rv setting_name])
    else
      (dictInsert prop "default" (.str rv), [])

/-- Lines 95-96: `if pg_type == 'integer' and min_val is not None:`.
The `int()` call sits outside any `try`, so a parse failure is an
uncaught `ValueError` (modelled as `Except.error`). -/
def boundsStep1 (sd : SettingData) (prop : PropDict) :
    Except String PropDict :=
  if sd.vartype = "integer" then
    match sd.min_val with
    | some mv => (pyIntE mv).map (fun n => dictInsert prop "minimum" (.int n))
    | none => .ok prop
  else .ok prop

/-- Lines 97-100: `if pg_type == 'integer' and max_val is not None: ...
elif pg_type == 'real' and min_val is not None: ...`. -/
def boundsStep2 (sd : SettingData) (prop : PropDict) :
    Except String PropDict :=
  if sd.vartype = "integer" then
    match sd.max_val with
    | some mv => (pyIntE mv).map (fun n => dictInsert prop "maximum" (.int n))
    | none => .ok prop
  else if sd.vartype = "real" then
    match sd.min_val with
    | some mv =>
      (pyFloatE mv).map (fun x => dictInsert prop "minimum" (.real x))
    | none => .ok prop
  else .ok prop

/-- Lines 101-102: `if pg_type == 'real' and max_val is not None:`. -/
def boundsStep3 (sd : SettingData) (prop : PropDict) :
    Except String PropDict :=
  if sd.vartype = "real" then
    match sd.max_val with
    | some mv =>
      (pyFloatE mv).map (fun x => dictInsert prop "maximum" (.real x))
    | none => .ok prop
  else .ok prop

/-- Lines 104-105: `if pg_type == 'enum' and setting_data['enumvals']:`
(Python truthiness: `None` and the empty list are falsy). -/
def enumStep (sd : SettingData) (prop : PropDict) : PropDict :=
  if sd.vartype = "enum" then
    match sd.enumvals with
    | some evs => if evs = [] then prop
                  else dictInsert prop "enum" (.strList evs)
    | none => prop
  else prop

/-- Lines 69-77: the property dict after the `type` and `description`
assignments. -/
def baseProp (sd : SettingData) : PropDict :=
  dictInsert (dictInsert [] "type" (.str (type_mapping sd.vartype)))
    "description" (.str (descriptionOf sd))

/-- Lines 69-105: builds one property from one setting row. Returns the
prop and the warnings printed, or the uncaught exception. -/
def buildProp (setting_name : String) (sd : SettingData) :
    Except String (PropDict × List String) :=
  let s2 := defaultStep setting_name sd (baseProp sd)
  match boundsStep1 sd s2.1 with
  | .error e => .error e
  | .ok prop3 =>
    match boundsStep2 sd prop3 with
    | .error e => .error e
    | .ok prop4 =>
      match boundsStep3 sd prop4 with
      | .error e => .error e
      | .ok prop5 => .ok (enumStep sd prop5, s2.2)

/-- The warning of line 66. -/
def missingWarn (setting_name : String) : String :=
  "Warning: Setting \x27" ++ setting_name ++
    "\x27 from YAML not found in database data. Skipping."

/-- Lines 64-67 plus the property build: looks the setting up in the
database mapping; a missing row yields a warning and no property
(Python checks `if not setting_data:`, and `dict.get` returns `None`
for a missing key; rows themselves are always non-empty dicts). -/
def processOne (db : DB) (setting_name : String) :
    Except String (Option PropDict × List String) :=
  match db.lookup setting_name with
  | none => .ok (none, [missingWarn setting_name])
  | some sd => (buildProp setting_name sd).map (fun p => (some p.1, p.2))

/-- Prepends warnings to an `Except` result carrying a warning list. -/
def addWarnings {α : Type} (w : List String) :
    Except String (α × List String) → Except String (α × List String)
  | .error e => .error e
  | .ok (a, ws) => .ok (a, w ++ ws)

/-- The inner loop of lines 63-107 over an already-sorted name list:
builds the `properties` dict of one category. -/
def processSorted (db : DB) : List String → List (String × PropDict) →
    Except String (List (String × PropDict) × List String)
  | [], props => .ok (props, [])
  | n :: rest, props =>
    match processOne db n with
    | .error e => .error e
    | .ok (none, w) => addWarnings w (processSorted db rest props)
    | .ok (some p, w) =>
      addWarnings w (processSorted db rest (dictInsert props n p))

/-- One category sub-schema (lines 57-61): fixed type tag, generated
description, and the properties dict. -/
structure CategorySchema where
  tag : String
  description : String
  properties : List (String × PropDict)
deriving DecidableEq

/-- Lines 56-107 for one category: sort the declared names
(`sorted(settings_list)`) and build the properties dict. -/
def processCategory (db : DB) (category_name : String)
    (settings_list : List String) :
    Except String (CategorySchema × List String) :=
  (processSorted db (pySorted settings_list) []).map fun r =>
    ({ tag := "object"
       description := "Settings for the " ++ category_name ++ " category."
       properties := r.1 }, r.2)

/-- The generated schema document (lines 42-46): fixed type tag and
description, and the per-category dict. -/
structure SchemaDoc where
  tag : String
  description : String
  properties : List (String × CategorySchema)
deriving DecidableEq

/-- The outer loop of lines 56-109 over the categories dict. `acc` is
the `schema['properties']` dict built so far. -/
def genCats (db : DB) : List (String × List String) →
    List (String × CategorySchema) →
    Except String (List (String × CategorySchema) × List String)
  | [], acc => .ok (acc, [])
  | (c, l) :: rest, acc =>
    match processCategory db c l with
    | .error e => .error e
    | .ok (cs, w) => addWarnings w (genCats db rest (dictInsert acc c cs))

/-- The function `generate_schema_yaml` (lines 40-111): returns the schema document
and the warnings printed to stderr, or the uncaught exception raised
by a bound conversion. -/
def generate_schema_yaml (db : DB) (categories : List (String × List String)) :
    Except String (SchemaDoc × List String) :=
  (genCats db categories []).map fun r =>
    ({ tag := "object"
       description := "Schema for PostgreSQL configuration settings (postgresql.conf), grouped by category."
       properties := r.1 }, r.2)

/-! ### Category Source (`get_yaml_categories`, lines 23-38)

The file read and the YAML parse are external boundaries (their
failures, `FileNotFoundError` and `yaml.YAMLError`, are caught on
lines 33-38 and exit with a diagnostic); the embedding starts from the
parsed document. Mapping keys are modelled as strings, which covers
every well-formed parameters file. -/

/-- A parsed YAML document. `float` carries the source text, as above. -/
inductive Yaml
  | null
  | bool (b : Bool)
  | int (n : Int)
  | float (src : String)
  | str (s : String)
  | seq (xs : List Yaml)
  | map (kvs : List (String × Yaml))

/-- Outcome of `get_yaml_categories` on a parsed document. -/
inductive CatResult
  | ok (cats : List (String × Yaml))
  | errorExit (msg : String)
  | typeError

/-- Python `'categories' == y` for a YAML-parsed value `y`: only the
equal string compares equal. -/
def isCategoriesStr : Yaml → Bool
  | .str s => s == "categories"
  | _ => false

def chIsPrefixOf : List Char → List Char → Bool
  | [], _ => true
  | _ :: _, [] => false
  | a :: as, b :: bs => a == b && chIsPrefixOf as bs

/-- Python `needle in haystack` for strings: substring test. -/
def chIsInfixOf (needle : List Char) : List Char → Bool
  | [] => chIsPrefixOf needle []
  | c :: rest => chIsPrefixOf needle (c :: rest) || chIsInfixOf needle rest

/-- The diagnostic of line 31. -/
def catsErrMsg (yaml_path : String) : String :=
  "Error: \x27categories\x27 key not found or not a dictionary in " ++
    yaml_path

/-- Lines 27-32: `if 'categories' in data and isinstance(data['categories'], dict)`.
Python `in` on a dict checks keys; on a list it checks membership; on a
string it is a substring test; on `None`, booleans and numbers it
raises `TypeError`. `data['categories']` with a string index raises
`TypeError` on lists and strings. `errorExit m` models printing `m` to
stderr followed by `sys.exit(1)`; `typeError` models the uncaught
exception (traceback, nonzero exit, no diagnostic of line 31). -/
def get_yaml_categories (yaml_path : String) (data : Yaml) : CatResult :=
  match data with
  | .map kvs =>
    match kvs.lookup "categories" with
    | some (.map m) => .ok m
    | some _ => .errorExit (catsErrMsg yaml_path)
    | none => .errorExit (catsErrMsg yaml_path)
  | .seq xs =>
    if xs.any isCategoriesStr then .typeError
    else .errorExit (catsErrMsg yaml_path)
  | .str s =>
    if chIsInfixOf "categories".toList s.toList then .typeError
    else .errorExit (catsErrMsg yaml_path)
  | _ => .typeError

/-! ### `main` (lines 144-186), after both sources have loaded

Connection parameters, progress printing and the output write are
external boundaries; what remains of `main` is the set comparison and
the decision whether to generate. -/

/-- Line 153: the set of names declared in the YAML file, before
deduplication (the Python set construction deduplicates; membership
tests below are unaffected). -/
def yamlSettingsOf (cats : List (String × List String)) : List String :=
  (cats.map Prod.snd).flatten

/-- Outcome of `main` once both inputs are loaded. -/
inductive MainOutcome
  | generated (result : Except String (SchemaDoc × List String))
  | mismatch (in_yaml_not_in_db in_db_not_in_yaml : List String)

/-- Lines 156-186: compute the two sorted difference lists; if both are
empty, generate the schema (whose uncaught exception, if any, is in
the `Except`), else report the mismatch and exit 1. -/
def mainCompare (db : DB) (cats : List (String × List String)) :
    MainOutcome :=
  let dbKeys := db.map Prod.fst
  let yamlList := yamlSettingsOf cats
  let in_yaml_not_in_db :=
    pySorted (yamlList.dedup.filter (fun x => ! dbKeys.contains x))
  let in_db_not_in_yaml :=
    pySorted (dbKeys.dedup.filter (fun x => ! yamlList.contains x))
  if in_yaml_not_in_db = [] ∧ in_db_not_in_yaml = [] then
    .generated (generate_schema_yaml db cats)
  else
    .mismatch in_yaml_not_in_db in_db_not_in_yaml

/-- Whether `generate_schema_yaml` was invoked on this run. -/
def MainOutcome.schemaInvoked : MainOutcome → Bool
  | .generated _ => true
  | .mismatch _ _ => false

/-- The process exit status: 0 only on the fully successful path
(line 170); the mismatch path exits 1 (line 186) and an uncaught
exception from the generator also terminates with a nonzero status.
A failing output write (lines 171-173) is an external-boundary failure
not modelled here. -/
def MainOutcome.exitCode : MainOutcome → Nat
  | .generated (.ok _) => 0
  | .generated (.error _) => 1
  | .mismatch _ _ => 1

/-- Whether the output schema file is written (line 168-169 is reached
with a generated document). -/
def MainOutcome.fileWritten : MainOutcome → Bool
  | .generated (.ok _) => true
  | .generated (.error _) => false
  | .mismatch _ _ => false

/-- A category map with duplicate occurrences inside each name list
removed. -/
def dedupLists (cats : List (String × List String)) :
    List (String × List String) :=
  cats.map (fun p => (p.1, p.2.dedup))

/-! ### Lemmas about the association-list dictionary -/

theorem dictInsert_idem {α : Type} (d : List (String × α)) (k : String) (v : α) :
    dictInsert (dictInsert d k v) k v = dictInsert d k v := by
  induction d with
  | nil => simp [dictInsert]
  | cons p rest ih =>
    obtain ⟨k', v'⟩ := p
    by_cases h : k' = k
    · simp [dictInsert, h]
    · simp [dictInsert, h, ih]

theorem lookup_dictInsert_self {α : Type} (d : List (String × α)) (k : String)
    (v : α) : (dictInsert d k v).lookup k = some v := by
  induction d with
  | nil => simp [dictInsert, List.lookup]
  | cons p rest ih =>
    obtain ⟨k', v'⟩ := p
    by_cases h : k' = k
    · subst h
      simp [dictInsert, List.lookup]
    · have hb : (k == k') = false := beq_eq_false_iff_ne.mpr (Ne.symm h)
      simp [dictInsert, h, List.lookup, hb, ih]

theorem lookup_dictInsert_ne {α : Type} (d : List (String × α)) {k k' : String}
    (v : α) (h : k ≠ k') : (dictInsert d k' v).lookup k = d.lookup k := by
  induction d with
  | nil =>
    have hb : (k == k') = false := beq_eq_false_iff_ne.mpr h
    simp [dictInsert, List.lookup, hb]
  | cons p rest ih =>
    obtain ⟨a, b⟩ := p
    by_cases ha : a = k'
    · subst ha
      have hb : (k == a) = false := beq_eq_false_iff_ne.mpr h
      simp [dictInsert, List.lookup, hb]
    · simp only [dictInsert, if_neg ha, List.lookup]
      cases hka : (k == a) <;> simp [ih]

theorem dictInsert_of_not_mem {α : Type} {d : List (String × α)} {k : String}
    (v : α) (h : k ∉ d.map Prod.fst) : dictInsert d k v = d ++ [(k, v)] := by
  induction d with
  | nil => simp [dictInsert]
  | cons p rest ih =>
    obtain ⟨a, b⟩ := p
    simp only [List.map_cons, List.mem_cons] at h
    push_neg at h
    simp [dictInsert, Ne.symm h.1, ih h.2]

theorem keys_dictInsert_of_mem {α : Type} {d : List (String × α)} {k : String}
    (v : α) (h : k ∈ d.map Prod.fst) :
    (dictInsert d k v).map Prod.fst = d.map Prod.fst := by
  induction d with
  | nil => simp at h
  | cons p rest ih =>
    obtain ⟨a, b⟩ := p
    by_cases ha : a = k
    · simp [dictInsert, ha]
    · simp only [List.map_cons, List.mem_cons] at h
      rcases h with h | h
    
      · exact absurd h.symm ha
      · simp [dictInsert, ha, ih h]

theorem mem_dictInsert {α : Type} {d : List (String × α)} {k : String} {v : α}
    {q : String × α} (h : q ∈ dictInsert d k v) : q ∈ d ∨ q = (k, v) := by
  induction d with
  | nil => simp [dictInsert] at h; right; exact h
  | cons p rest ih =>
    obtain ⟨a, b⟩ := p
    by_cases ha : a = k
    · simp only [dictInsert, if_pos ha, List.mem_cons] at h
      rcases h with h | h
      · right; exact h
      · left; exact List.mem_cons_of_mem _ h
    · simp only [dictInsert, if_neg ha, List.mem_cons] at h
      rcases h with h | h
      · left; exact List.mem_cons.mpr (Or.inl h)
      · rcases ih h with h' | h'
        · left; exact List.mem_cons_of_mem _ h'
        · right; exact h'

/-! ### Comparing generator results up to warnings

`ExceptFstEq x y` holds when `x` and `y` fail with the same uncaught
exception or succeed with the same payload, warnings aside. -/

def ExceptFstEq {α : Type} :
    Except String (α × List String) → Except String (α × List String) → Prop
  | .error e, .error f => e = f
  | .ok a, .ok b => a.1 = b.1
  | .error _, .ok _ => False
  | .ok _, .error _ => False

theorem ExceptFstEq.refl' {α : Type} (x : Except String (α × List String)) :
    ExceptFstEq x x := by
  cases x <;> simp [ExceptFstEq]

theorem ExceptFstEq.symm' {α : Type}
    {x y : Except String (α × List String)} (h : ExceptFstEq x y) :
    ExceptFstEq y x := by
  cases x <;> cases y <;> simp_all [ExceptFstEq]

theorem ExceptFstEq.trans' {α : Type}
    {x y z : Except String (α × List String)}
    (h1 : ExceptFstEq x y) (h2 : ExceptFstEq y z) : ExceptFstEq x z := by
  cases x <;> cases y <;> cases z <;> simp_all [ExceptFstEq]

theorem exceptFstEq_addWarnings_left {α : Type} (w : List String)
    {x y : Except String (α × List String)} :
    ExceptFstEq (addWarnings w x) y ↔ ExceptFstEq x y := by
  cases x <;> cases y <;> simp [ExceptFstEq, addWarnings]

theorem exceptFstEq_addWarnings_right {α : Type} (w : List String)
    {x y : Except String (α × List String)} :
    ExceptFstEq x (addWarnings w y) ↔ ExceptFstEq x y := by
  cases x <;> cases y <;> simp [ExceptFstEq, addWarnings]

theorem addWarnings_ok {α : Type} {w : List String}
    {x : Except String (α × List String)} {a : α} {ws : List String}
    (h : addWarnings w x = .ok (a, ws)) : ∃ ws', x = .ok (a, ws') := by
  cases x with
  | error e => simp [addWarnings] at h
  | ok p =>
    obtain ⟨b, ws'⟩ := p
    simp [addWarnings] at h
    exact ⟨ws', by rw [h.1]⟩

theorem addWarnings_error_iff {α : Type} {w : List String}
    {x : Except String (α × List String)} {e : String} :
    addWarnings w x = .error e ↔ x = .error e := by
  cases x <;> simp [addWarnings]

/-! ### Lemmas about `pySorted` -/

theorem pySorted_sorted (l : List String) : List.Sorted StrLe (pySorted l) :=
  List.sorted_insertionSort StrLe l

theorem pySorted_perm (l : List String) : (pySorted l).Perm l :=
  List.perm_insertionSort StrLe l

theorem mem_pySorted {a : String} {l : List String} :
    a ∈ pySorted l ↔ a ∈ l := (pySorted_perm l).mem_iff

theorem pySorted_eq_nil_iff {l : List String} : pySorted l = [] ↔ l = [] := by
  constructor
  · intro h
    have := pySorted_perm l
    rw [h] at this
    exact this.symm.eq_nil
  · intro h; subst h; rfl

theorem pySorted_dedup_comm (l : List String) :
    pySorted l.dedup = (pySorted l).dedup := by
  refine List.eq_of_perm_of_sorted ?_ (pySorted_sorted _)
    (List.Pairwise.sublist (List.dedup_sublist _) (pySorted_sorted l))
  rw [List.perm_ext_iff_of_nodup
    (((pySorted_perm l.dedup).nodup_iff).mpr (List.nodup_dedup l))
    (List.nodup_dedup _)]
  intro a
  rw [mem_pySorted, List.mem_dedup, List.mem_dedup, mem_pySorted]

/-! ### Lemmas about the per-category loop -/

theorem sorted_mem_head {a : String} {t : List String}
    (hs : List.Sorted StrLe (a :: t)) (hm : a ∈ t) :
    ∃ t', t = a :: t' := by
  cases t with
  | nil => cases hm
  | cons b u =>
    have hab : StrLe a b := (List.sorted_cons.mp hs).1 b (by simp)
    rcases List.mem_cons.mp hm with h | h
    · exact ⟨u, by rw [h]⟩
    · have hba : StrLe b a :=
        (List.sorted_cons.mp (List.sorted_cons.mp hs).2).1 a h
      exact ⟨u, by rw [strLe_antisymm hab hba]⟩

/-- Re-processing a name that repeats later in a sorted list changes
only the warnings: the second insertion overwrites the first with the
identical property. -/
theorem processSorted_cons_dup {db : DB} {a : String} {t : List String}
    (props : List (String × PropDict))
    (hs : List.Sorted StrLe (a :: t)) (hm : a ∈ t) :
    ExceptFstEq (processSorted db (a :: t) props)
      (processSorted db t props) := by
  obtain ⟨t', rfl⟩ := sorted_mem_head hs hm
  cases hp : processOne db a with
  | error e =>
    simp only [processSorted, hp]
    exact ExceptFstEq.refl' _
  | ok pr =>
    obtain ⟨op, w⟩ := pr
    cases op with
    | none =>
      simp only [processSorted, hp]
      rw [exceptFstEq_addWarnings_left, exceptFstEq_addWarnings_left,
        exceptFstEq_addWarnings_right]
      exact ExceptFstEq.refl' _
    | some p =>
      simp only [processSorted, hp, dictInsert_idem]
      rw [exceptFstEq_addWarnings_left, exceptFstEq_addWarnings_left,
        exceptFstEq_addWarnings_right]
      exact ExceptFstEq.refl' _

/-- Duplicates in a sorted name list do not change the generated
properties dict (nor which exception, if any, is raised). -/
theorem processSorted_dedup {db : DB} : ∀ {s : List String},
    List.Sorted StrLe s → ∀ props,
    ExceptFstEq (processSorted db s props) (processSorted db s.dedup props) := by
  intro s
  induction s with
  | nil => intro _ props; exact ExceptFstEq.refl' _
  | cons a t ih =>
    intro hs props
    have hst : List.Sorted StrLe t := (List.sorted_cons.mp hs).2
    by_cases hm : a ∈ t
    · rw [List.dedup_cons_of_mem hm]
      exact (processSorted_cons_dup props hs hm).trans' (ih hst props)
    · rw [List.dedup_cons_of_not_mem hm]
      cases hp : processOne db a with
      | error e => simp only [processSorted, hp]; exact ExceptFstEq.refl' _
      | ok pr =>
        obtain ⟨op, w⟩ := pr
        cases op with
        | none =>
          simp only [processSorted, hp]
          rw [exceptFstEq_addWarnings_left, exceptFstEq_addWarnings_right]
          exact ih hst props
        | some p =>
          simp only [processSorted, hp]
          rw [exceptFstEq_addWarnings_left, exceptFstEq_addWarnings_right]
          exact ih hst (dictInsert props a p)

/-- If every name in the list processes without an exception, the whole
loop succeeds. -/
theorem processSorted_ok {db : DB} : ∀ (s : List String)
    (props : List (String × PropDict)),
    (∀ n ∈ s, ∃ r, processOne db n = .ok r) →
    ∃ q, processSorted db s props = .ok q := by
  intro s
  induction s with
  | nil => intro props _; exact ⟨(props, []), rfl⟩
  | cons a t ih =>
    intro props h
    obtain ⟨r, hr⟩ := h a (by simp)
    obtain ⟨op, w⟩ := r
    cases op with
    | none =>
      obtain ⟨q, hq⟩ := ih props (fun n hn => h n (List.mem_cons_of_mem _ hn))
      exact ⟨(q.1, w ++ q.2), by
        simp only [processSorted, hr, hq, addWarnings]⟩
    | some p =>
      obtain ⟨q, hq⟩ := ih (dictInsert props a p)
        (fun n hn => h n (List.mem_cons_of_mem _ hn))
      exact ⟨(q.1, w ++ q.2), by
        simp only [processSorted, hr, hq, addWarnings]⟩

/-- If some name in the list raises, the whole loop raises. -/
theorem processSorted_error {db : DB} {n : String} : ∀ (s : List String)
    (props : List (String × PropDict)), n ∈ s →
    (∀ r, processOne db n ≠ .ok r) →
    ∃ e, processSorted db s props = .error e := by
  intro s
  induction s with
  | nil => intro props h; cases h
  | cons a t ih =>
    intro props hmem hbad
    cases hp : processOne db a with
    | error e => exact ⟨e, by simp only [processSorted, hp]⟩
    | ok pr =>
      have hat : n ∈ t := by
        rcases List.mem_cons.mp hmem with h | h
        · exact absurd hp (h ▸ hbad pr)
        · exact h
      obtain ⟨op, w⟩ := pr
      cases op with
      | none =>
        obtain ⟨e, he⟩ := ih props hat hbad
        exact ⟨e, by simp only [processSorted, hp, he, addWarnings]⟩
      | some p =>
        obtain ⟨e, he⟩ := ih (dictInsert props a p) hat hbad
        exact ⟨e, by simp only [processSorted, hp, he, addWarnings]⟩

/-- A successful `processOne` that yields a property comes from a found
row and a successful `buildProp`. -/
theorem processOne_ok_some {db : DB} {n : String} {p : PropDict}
    {w : List String} (h : processOne db n = .ok (some p, w)) :
    ∃ sd, db.lookup n = some sd ∧ buildProp n sd = .ok (p, w) := by
  cases hl : db.lookup n with
  | none => simp only [processOne, hl] at h; simp at h
  | some sd =>
    simp only [processOne, hl] at h
    refine ⟨sd, rfl, ?_⟩
    cases hb : buildProp n sd with
    | error e => rw [hb] at h; simp [Except.map] at h
    | ok q =>
      rw [hb] at h
      obtain ⟨q1, q2⟩ := q
      simp [Except.map] at h
      rw [h.1, h.2]

/-- Every entry of the properties dict produced by the loop either was
already present or was built by `buildProp` from the row found for its
name. -/
theorem processSorted_mem_origin {db : DB} : ∀ {s : List String}
    {props res : List (String × PropDict)} {ws : List String},
    processSorted db s props = .ok (res, ws) → ∀ q ∈ res,
    q ∈ props ∨
      ∃ sd w, db.lookup q.1 = some sd ∧ buildProp q.1 sd = .ok (q.2, w) := by
  intro s
  induction s with
  | nil =>
    intro props res ws h q hq
    simp only [processSorted] at h
    cases h
    exact Or.inl hq
  | cons a t ih =>
    intro props res ws h q hq
    cases hp : processOne db a with
    | error e => rw [processSorted, hp] at h; cases h
    | ok pr =>
      obtain ⟨op, w⟩ := pr
      cases op with
      | none =>
        rw [processSorted, hp] at h
        obtain ⟨ws', h'⟩ := addWarnings_ok h
        exact ih h' q hq
      | some p =>
        rw [processSorted, hp] at h
        obtain ⟨ws', h'⟩ := addWarnings_ok h
        rcases ih h' q hq with hin | hbuilt
        · rcases mem_dictInsert hin with hin' | hq'
          · exact Or.inl hin'
          · subst hq'
            obtain ⟨sd, hsd, hb⟩ := processOne_ok_some hp
            exact Or.inr ⟨sd, w, hsd, hb⟩
        · exact Or.inr hbuilt

/-- Keys of the produced properties dict are in strictly increasing
code-point order when the processed list is sorted. -/
theorem processSorted_keys_sorted {db : DB} : ∀ {s : List String}
    {props res : List (String × PropDict)} {ws : List String},
    List.Sorted StrLe s →
    List.Pairwise StrLt (props.map Prod.fst) →
    (∀ k ∈ props.map Prod.fst, ∀ n ∈ s, StrLe k n) →
    processSorted db s props = .ok (res, ws) →
    List.Pairwise StrLt (res.map Prod.fst) := by
  intro s
  induction s with
  | nil =>
    intro props res ws _ hp _ h
    simp only [processSorted] at h
    cases h
    exact hp
  | cons a t ih =>
    intro props res ws hs hp hb h
    have hst : List.Sorted StrLe t := (List.sorted_cons.mp hs).2
    have hat : ∀ n ∈ t, StrLe a n := (List.sorted_cons.mp hs).1
    cases hpo : processOne db a with
    | error e => rw [processSorted, hpo] at h; cases h
    | ok pr =>
      obtain ⟨op, w⟩ := pr
      cases op with
      | none =>
        rw [processSorted, hpo] at h
        obtain ⟨ws', h'⟩ := addWarnings_ok h
        exact ih hst hp
          (fun k hk n hn => hb k hk n (List.mem_cons_of_mem _ hn)) h'
      | some p =>
        rw [processSorted, hpo] at h
        obtain ⟨ws', h'⟩ := addWarnings_ok h
        by_cases hmem : a ∈ props.map Prod.fst
        · refine ih hst ?_ ?_ h'
          · rw [keys_dictInsert_of_mem p hmem]; exact hp
          · rw [keys_dictInsert_of_mem p hmem]
            exact fun k hk n hn => hb k hk n (List.mem_cons_of_mem _ hn)
        · refine ih hst ?_ ?_ h'
          · rw [dictInsert_of_not_mem p hmem]
            rw [List.map_append, List.pairwise_append]
            refine ⟨hp, by simp, ?_⟩
            intro k hk k' hk'
            simp at hk'
            rw [hk']
            refine ⟨hb k hk a (by simp), ?_⟩
            intro hkq
            exact hmem (hkq ▸ hk)
          · rw [dictInsert_of_not_mem p hmem]
            rw [List.map_append]
            intro k hk n hn
            rcases List.mem_append.mp hk with hk' | hk'
            · exact hb k hk' n (List.mem_cons_of_mem _ hn)
            · simp at hk'
              subst hk'
              exact hat n hn

/-! ### Lemmas about the category loop -/

theorem exceptFstEq_map {α β : Type} (g : α → β)
    {x y : Except String (α × List String)} (h : ExceptFstEq x y) :
    ExceptFstEq (x.map (fun r => (g r.1, r.2)))
      (y.map (fun r => (g r.1, r.2))) := by
  cases x <;> cases y <;> simp_all [ExceptFstEq, Except.map]

theorem processCategory_dedup (db : DB) (c : String) (l : List String) :
    ExceptFstEq (processCategory db c l.dedup) (processCategory db c l) := by
  unfold processCategory
  rw [pySorted_dedup_comm]
  exact exceptFstEq_map _
    ((processSorted_dedup (pySorted_sorted l) []).symm')

theorem genCats_dedup (db : DB) : ∀ (cats : List (String × List String))
    (acc : List (String × CategorySchema)),
    ExceptFstEq (genCats db (dedupLists cats) acc) (genCats db cats acc) := by
  intro cats
  induction cats with
  | nil => intro acc; exact ExceptFstEq.refl' _
  | cons p rest ih =>
    intro acc
    obtain ⟨c, l⟩ := p
    have hc := processCategory_dedup db c l
    simp only [dedupLists, List.map_cons]
    cases h1 : processCategory db c l.dedup with
    | error e =>
      cases h2 : processCategory db c l with
      | error f =>
        rw [h1, h2] at hc
        simp only [genCats, h1, h2]
        exact hc
      | ok r2 =>
        rw [h1, h2] at hc
        simp [ExceptFstEq] at hc
    | ok r1 =>
      cases h2 : processCategory db c l with
      | error f =>
        rw [h1, h2] at hc
        simp [ExceptFstEq] at hc
      | ok r2 =>
        rw [h1, h2] at hc
        have hr : r1.1 = r2.1 := hc
        simp only [genCats, h1, h2]
        rw [exceptFstEq_addWarnings_left, exceptFstEq_addWarnings_right, hr]
        exact ih (dictInsert acc c r2.1)

theorem genCats_ok {db : DB} : ∀ (cats : List (String × List String))
    (acc : List (String × CategorySchema)),
    (∀ p ∈ cats, ∃ r, processCategory db p.1 p.2 = .ok r) →
    ∃ q, genCats db cats acc = .ok q := by
  intro cats
  induction cats with
  | nil => intro acc _; exact ⟨(acc, []), rfl⟩
  | cons p rest ih =>
    intro acc h
    obtain ⟨c, l⟩ := p
    obtain ⟨r, hr⟩ := h (c, l) (by simp)
    obtain ⟨cs, w⟩ := r
    obtain ⟨q, hq⟩ :=
      ih (dictInsert acc c cs) (fun p hp => h p (List.mem_cons_of_mem _ hp))
    exact ⟨(q.1, w ++ q.2), by
      obtain ⟨q1, q2⟩ := q
      simp only [genCats, hr, hq, addWarnings]⟩

theorem genCats_error {db : DB} {c : String} {l : List String} :
    ∀ (cats : List (String × List String))
    (acc : List (String × CategorySchema)), (c, l) ∈ cats →
    (∀ r, processCategory db c l ≠ .ok r) →
    ∃ e, genCats db cats acc = .error e := by
  intro cats
  induction cats with
  | nil => intro acc h; cases h
  | cons p rest ih =>
    intro acc hmem hbad
    obtain ⟨c', l'⟩ := p
    cases hp : processCategory db c' l' with
    | error e => exact ⟨e, by simp only [genCats, hp]⟩
    | ok r =>
      have hrest : (c, l) ∈ rest := by
        rcases List.mem_cons.mp hmem with h | h
        · injection h with h1 h2
          subst h1; subst h2
          exact absurd hp (hbad r)
        · exact h
      obtain ⟨cs, w⟩ := r
      obtain ⟨e, he⟩ := ih (dictInsert acc c' cs) hrest hbad
      exact ⟨e, by simp only [genCats, hp, he, addWarnings]⟩

theorem genCats_mem_origin {db : DB} : ∀ {cats : List (String × List String)}
    {acc res : List (String × CategorySchema)} {ws : List String},
    genCats db cats acc = .ok (res, ws) → ∀ q ∈ res,
    q ∈ acc ∨
      ∃ l w, (q.1, l) ∈ cats ∧ processCategory db q.1 l = .ok (q.2, w) := by
  intro cats
  induction cats with
  | nil =>
    intro acc res ws h q hq
    simp only [genCats] at h
    cases h
    exact Or.inl hq
  | cons p rest ih =>
    intro acc res ws h q hq
    obtain ⟨c, l⟩ := p
    cases hp : processCategory db c l with
    | error e => rw [genCats, hp] at h; cases h
    | ok r =>
      obtain ⟨cs, w⟩ := r
      rw [genCats, hp] at h
      obtain ⟨ws', h'⟩ := addWarnings_ok h
      rcases ih h' q hq with hin | hbuilt
      · rcases mem_dictInsert hin with hin' | hq'
        · exact Or.inl hin'
        · subst hq'
          exact Or.inr ⟨l, w, by simp, hp⟩
      · obtain ⟨l', w', hmem', hp'⟩ := hbuilt
        exact Or.inr ⟨l', w', List.mem_cons_of_mem _ hmem', hp'⟩

theorem genCats_keys {db : DB} : ∀ {cats : List (String × List String)}
    {acc res : List (String × CategorySchema)} {ws : List String},
    genCats db cats acc = .ok (res, ws) →
    (∀ c ∈ cats.map Prod.fst, c ∉ acc.map Prod.fst) →
    (cats.map Prod.fst).Nodup →
    res.map Prod.fst = acc.map Prod.fst ++ cats.map Prod.fst := by
  intro cats
  induction cats with
  | nil =>
    intro acc res ws h _ _
    simp only [genCats] at h
    cases h
    simp
  | cons p rest ih =>
    intro acc res ws h hdisj hnd
    obtain ⟨c, l⟩ := p
    cases hp : processCategory db c l with
    | error e => rw [genCats, hp] at h; cases h
    | ok r =>
      obtain ⟨cs, w⟩ := r
      rw [genCats, hp] at h
      obtain ⟨ws', h'⟩ := addWarnings_ok h
      have hcacc : c ∉ acc.map Prod.fst := hdisj c (by simp)
      have hext : (dictInsert acc c cs).map Prod.fst =
          acc.map Prod.fst ++ [c] := by
        rw [dictInsert_of_not_mem cs hcacc, List.map_append]
        rfl
      have hnd' : (rest.map Prod.fst).Nodup := by
        simp only [List.map_cons, List.nodup_cons] at hnd
        exact hnd.2
      have hcnotrest : c ∉ rest.map Prod.fst := by
        simp only [List.map_cons, List.nodup_cons] at hnd
        exact hnd.1
      have hdisj' : ∀ d ∈ rest.map Prod.fst,
          d ∉ (dictInsert acc c cs).map Prod.fst := by
        intro d hd
        rw [hext]
        intro hmem
        rcases List.mem_append.mp hmem with h1 | h1
        · exact hdisj d (List.mem_cons_of_mem _ hd) h1
        · simp at h1
          exact hcnotrest (h1 ▸ hd)
      have := ih h' hdisj' hnd'
      rw [this, hext, List.map_cons]
      rw [List.append_assoc]
      rfl

theorem processCategory_ok_props {db : DB} {c : String} {l : List String}
    {cs : CategorySchema} {w : List String}
    (h : processCategory db c l = .ok (cs, w)) :
    ∃ ws', processSorted db (pySorted l) [] = .ok (cs.properties, ws') := by
  unfold processCategory at h
  cases hq : processSorted db (pySorted l) [] with
  | error e => rw [hq] at h; simp [Except.map] at h
  | ok r =>
    rw [hq] at h
    obtain ⟨props, ws'⟩ := r
    simp only [Except.map, Except.ok.injEq, Prod.mk.injEq] at h
    exact ⟨ws', by rw [← h.1]⟩

/-! ### Lemmas about the property build steps -/

theorem lookup_dictInsert {α : Type} (d : List (String × α)) (k k' : String)
    (v : α) : (dictInsert d k' v).lookup k =
      if k = k' then some v else d.lookup k := by
  by_cases h : k = k'
  · subst h; simp [lookup_dictInsert_self]
  · simp [h, lookup_dictInsert_ne d v h]

theorem lookup_mem {α : Type} : ∀ {d : List (String × α)} {k : String}
    {v : α}, d.lookup k = some v → (k, v) ∈ d := by
  intro d
  induction d with
  | nil => intro k v h; simp [List.lookup] at h
  | cons p rest ih =>
    intro k v h
    obtain ⟨a, b⟩ := p
    by_cases hk : k = a
    · subst hk
      simp [List.lookup] at h
      simp [h]
    · have hb : (k == a) = false := beq_eq_false_iff_ne.mpr hk
      simp only [List.lookup, hb] at h
      exact List.mem_cons_of_mem _ (ih h)

theorem defaultStep_fst_lookup (n : String) (sd : SettingData)
    (prop : PropDict) {k : String} (hk : k ≠ "default") :
    ((defaultStep n sd prop).1).lookup k = prop.lookup k := by
  unfold defaultStep
  cases sd.reset_val with
  | none => rfl
  | some rv =>
    by_cases h1 : sd.vartype = "bool"
    · simp [h1, lookup_dictInsert, hk]
    · by_cases h2 : sd.vartype = "integer"
      · cases hpi : pyInt rv <;>
          simp [h1, h2, hpi, lookup_dictInsert, hk]
      · by_cases h3 : sd.vartype = "real"
        · by_cases hf : pyFloatOk rv <;>
            simp [h1, h2, h3, hf, lookup_dictInsert, hk]
        · simp [h1, h2, h3, lookup_dictInsert, hk]

theorem boundsStep1_lookup {sd : SettingData} {prop p' : PropDict}
    (h : boundsStep1 sd prop = .ok p') {k : String} (hk : k ≠ "minimum") :
    p'.lookup k = prop.lookup k := by
  unfold boundsStep1 at h
  by_cases h1 : sd.vartype = "integer"
  · rw [if_pos h1] at h
    cases hm : sd.min_val with
    | none => rw [hm] at h; cases h; rfl
    | some s =>
      simp only [hm] at h
      cases hp : pyIntE s with
      | error e => rw [hp] at h; simp [Except.map] at h
      | ok m =>
        rw [hp] at h
        simp [Except.map] at h
        rw [← h, lookup_dictInsert]
        simp [hk]
  · rw [if_neg h1] at h; cases h; rfl

theorem boundsStep2_lookup {sd : SettingData} {prop p' : PropDict}
    (h : boundsStep2 sd prop = .ok p') {k : String} (hk1 : k ≠ "minimum")
    (hk2 : k ≠ "maximum") : p'.lookup k = prop.lookup k := by
  unfold boundsStep2 at h
  by_cases h1 : sd.vartype = "integer"
  · rw [if_pos h1] at h
    cases hm : sd.max_val with
    | none => rw [hm] at h; cases h; rfl
    | some s =>
      simp only [hm] at h
      cases hp : pyIntE s with
      | error e => rw [hp] at h; simp [Except.map] at h
      | ok m =>
        rw [hp] at h
        simp [Except.map] at h
        rw [← h, lookup_dictInsert]
        simp [hk2]
  · rw [if_neg h1] at h
    by_cases h2 : sd.vartype = "real"
    · rw [if_pos h2] at h
      cases hm : sd.min_val with
      | none => rw [hm] at h; cases h; rfl
      | some s =>
        simp only [hm] at h
        cases hp : pyFloatE s with
        | error e => rw [hp] at h; simp [Except.map] at h
        | ok x =>
          rw [hp] at h
          simp [Except.map] at h
          rw [← h, lookup_dictInsert]
          simp [hk1]
    · rw [if_neg h2] at h; cases h; rfl

theorem boundsStep3_lookup {sd : SettingData} {prop p' : PropDict}
    (h : boundsStep3 sd prop = .ok p') {k : String} (hk : k ≠ "maximum") :
    p'.lookup k = prop.lookup k := by
  unfold boundsStep3 at h
  by_cases h1 : sd.vartype = "real"
  · rw [if_pos h1] at h
    cases hm : sd.max_val with
    | none => rw [hm] at h; cases h; rfl
    | some s =>
      simp only [hm] at h
      cases hp : pyFloatE s with
      | error e => rw [hp] at h; simp [Except.map] at h
      | ok x =>
        rw [hp] at h
        simp [Except.map] at h
        rw [← h, lookup_dictInsert]
        simp [hk]
  · rw [if_neg h1] at h; cases h; rfl

theorem enumStep_lookup (sd : SettingData) (prop : PropDict) {k : String}
    (hk : k ≠ "enum") : (enumStep sd prop).lookup k = prop.lookup k := by
  unfold enumStep
  by_cases h1 : sd.vartype = "enum"
  · rw [if_pos h1]
    cases sd.enumvals with
    | none => rfl
    | some evs =>
      by_cases he : evs = []
      · simp [he]
      · simp [he, lookup_dictInsert, hk]
  · rw [if_neg h1]

/-- Decomposition of a successful `buildProp` into its steps. -/
theorem buildProp_decomp {n : String} {sd : SettingData} {p : PropDict}
    {w : List String} (h : buildProp n sd = .ok (p, w)) :
    ∃ p3 p4 p5,
      boundsStep1 sd (defaultStep n sd (baseProp sd)).1 = .ok p3 ∧
      boundsStep2 sd p3 = .ok p4 ∧
      boundsStep3 sd p4 = .ok p5 ∧
      p = enumStep sd p5 ∧ w = (defaultStep n sd (baseProp sd)).2 := by
  simp only [buildProp] at h
  cases h1 : boundsStep1 sd (defaultStep n sd (baseProp sd)).1 with
  | error e => simp only [h1] at h; exact Except.noConfusion h
  | ok p3 =>
    simp only [h1] at h
    cases h2 : boundsStep2 sd p3 with
    | error e => simp only [h2] at h; exact Except.noConfusion h
    | ok p4 =>
      simp only [h2] at h
      cases h3 : boundsStep3 sd p4 with
      | error e => simp only [h3] at h; exact Except.noConfusion h
      | ok p5 =>
        simp only [h3, Except.ok.injEq, Prod.mk.injEq] at h
        exact ⟨p3, p4, p5, rfl, h2, h3, h.1.symm, h.2.symm⟩

/-- The lookups of the initial two-entry prop. -/
theorem baseProp_lookup_type (sd : SettingData) :
    (baseProp sd).lookup "type" = some (.str (type_mapping sd.vartype)) := by
  simp [baseProp, lookup_dictInsert]

theorem baseProp_lookup_description (sd : SettingData) :
    (baseProp sd).lookup "description" = some (.str (descriptionOf sd)) := by
  simp [baseProp, lookup_dictInsert]

theorem baseProp_lookup_other (sd : SettingData) {k : String}
    (h1 : k ≠ "type") (h2 : k ≠ "description") :
    (baseProp sd).lookup k = none := by
  have hb1 : (k == "type") = false := beq_eq_false_iff_ne.mpr h1
  have hb2 : (k == "description") = false := beq_eq_false_iff_ne.mpr h2
  simp [baseProp, lookup_dictInsert, h1, h2, List.lookup, hb1, hb2]

/-! ### Bound-conversion success and failure -/

/-- True when some present bound string of a numeric-typed record fails
to parse as the matching numeric type: exactly the condition under
which one of the conversions on lines 95-102 raises `ValueError`. -/
def boundParseFails (sd : SettingData) : Bool :=
  (sd.vartype == "integer" &&
    ((match sd.min_val with
      | some s => (pyInt s).isNone
      | none => false) ||
     (match sd.max_val with
      | some s => (pyInt s).isNone
      | none => false))) ||
  (sd.vartype == "real" &&
    ((match sd.min_val with
      | some s => !(pyFloatOk s)
      | none => false) ||
     (match sd.max_val with
      | some s => !(pyFloatOk s)
      | none => false)))

theorem boundsOk_int_min {sd : SettingData} (h : boundParseFails sd = false)
    (h1 : sd.vartype = "integer") :
    ∀ s, sd.min_val = some s → (pyInt s).isSome = true := by
  intro s hs
  simp only [boundParseFails, h1, hs] at h
  simp at h
  cases hp : pyInt s with
  | none => rw [hp] at h; simp at h
  | some m => rfl

theorem boundsOk_int_max {sd : SettingData} (h : boundParseFails sd = false)
    (h1 : sd.vartype = "integer") :
    ∀ s, sd.max_val = some s → (pyInt s).isSome = true := by
  intro s hs
  simp only [boundParseFails, h1, hs] at h
  simp at h
  cases hp : pyInt s with
  | none => rw [hp] at h; simp at h
  | some m => rfl

theorem boundsOk_real_min {sd : SettingData} (h : boundParseFails sd = false)
    (h1 : sd.vartype = "real") :
    ∀ s, sd.min_val = some s → pyFloatOk s = true := by
  intro s hs
  simp only [boundParseFails, h1, hs] at h
  simp at h
  exact h.1

theorem boundsOk_real_max {sd : SettingData} (h : boundParseFails sd = false)
    (h1 : sd.vartype = "real") :
    ∀ s, sd.max_val = some s → pyFloatOk s = true := by
  intro s hs
  simp only [boundParseFails, h1, hs] at h
  simp at h
  exact h.2

theorem boundsStep1_ok (sd : SettingData) (prop : PropDict)
    (h : sd.vartype = "integer" →
      ∀ s, sd.min_val = some s → (pyInt s).isSome = true) :
    ∃ p', boundsStep1 sd prop = .ok p' := by
  unfold boundsStep1
  by_cases h1 : sd.vartype = "integer"
  · rw [if_pos h1]
    cases hm : sd.min_val with
    | none => exact ⟨prop, rfl⟩
    | some s =>
      have hi := h h1 s hm
      cases hp : pyInt s with
      | none => rw [hp] at hi; simp at hi
      | some m =>
        exact ⟨dictInsert prop "minimum" (.int m),
          by simp [pyIntE, hp, Except.map]⟩
  · rw [if_neg h1]; exact ⟨prop, rfl⟩

theorem boundsStep2_ok (sd : SettingData) (prop : PropDict)
    (hi : sd.vartype = "integer" →
      ∀ s, sd.max_val = some s → (pyInt s).isSome = true)
    (hr : sd.vartype = "real" →
      ∀ s, sd.min_val = some s → pyFloatOk s = true) :
    ∃ p', boundsStep2 sd prop = .ok p' := by
  unfold boundsStep2
  by_cases h1 : sd.vartype = "integer"
  · rw [if_pos h1]
    cases hm : sd.max_val with
    | none => exact ⟨prop, rfl⟩
    | some s =>
      have hx := hi h1 s hm
      cases hp : pyInt s with
      | none => rw [hp] at hx; simp at hx
      | some m =>
        exact ⟨dictInsert prop "maximum" (.int m),
          by simp [pyIntE, hp, Except.map]⟩
  · rw [if_neg h1]
    by_cases h2 : sd.vartype = "real"
    · rw [if_pos h2]
      cases hm : sd.min_val with
      | none => exact ⟨prop, rfl⟩
      | some s =>
        have hx := hr h2 s hm
        exact ⟨dictInsert prop "minimum" (.real s),
          by simp [pyFloatE, hx, Except.map]⟩
    · rw [if_neg h2]; exact ⟨prop, rfl⟩

theorem boundsStep3_ok (sd : SettingData) (prop : PropDict)
    (hr : sd.vartype = "real" →
      ∀ s, sd.max_val = some s → pyFloatOk s = true) :
    ∃ p', boundsStep3 sd prop = .ok p' := by
  unfold boundsStep3
  by_cases h1 : sd.vartype = "real"
  · rw [if_pos h1]
    cases hm : sd.max_val with
    | none => exact ⟨prop, rfl⟩
    | some s =>
      have hx := hr h1 s hm
      exact ⟨dictInsert prop "maximum" (.real s),
        by simp [pyFloatE, hx, Except.map]⟩
  · rw [if_neg h1]; exact ⟨prop, rfl⟩

/-- When every present bound parses, the property build succeeds. -/
theorem buildProp_ok_of_boundsOk (n : String) (sd : SettingData)
    (h : boundParseFails sd = false) : ∃ r, buildProp n sd = .ok r := by
  obtain ⟨p3, h3⟩ := boundsStep1_ok sd (defaultStep n sd (baseProp sd)).1
    (fun h1 => boundsOk_int_min h h1)
  obtain ⟨p4, h4⟩ := boundsStep2_ok sd p3
    (fun h1 => boundsOk_int_max h h1) (fun h1 => boundsOk_real_min h h1)
  obtain ⟨p5, h5⟩ := boundsStep3_ok sd p4 (fun h1 => boundsOk_real_max h h1)
  exact ⟨(enumStep sd p5, (defaultStep n sd (baseProp sd)).2),
    by simp only [buildProp, h3, h4, h5]⟩

theorem boundsStep1_ok_cond {sd : SettingData} {prop p' : PropDict}
    (h : boundsStep1 sd prop = .ok p') (h1 : sd.vartype = "integer") :
    ∀ s, sd.min_val = some s → (pyInt s).isSome = true := by
  intro s hs
  unfold boundsStep1 at h
  rw [if_pos h1] at h
  simp only [hs] at h
  cases hp : pyInt s with
  | some m => rfl
  | none => simp only [pyIntE, hp] at h; simp [Except.map] at h

theorem boundsStep2_ok_cond_int {sd : SettingData} {prop p' : PropDict}
    (h : boundsStep2 sd prop = .ok p') (h1 : sd.vartype = "integer") :
    ∀ s, sd.max_val = some s → (pyInt s).isSome = true := by
  intro s hs
  unfold boundsStep2 at h
  rw [if_pos h1] at h
  simp only [hs] at h
  cases hp : pyInt s with
  | some m => rfl
  | none => simp only [pyIntE, hp] at h; simp [Except.map] at h

theorem boundsStep2_ok_cond_real {sd : SettingData} {prop p' : PropDict}
    (h : boundsStep2 sd prop = .ok p') (h1 : sd.vartype = "real") :
    ∀ s, sd.min_val = some s → pyFloatOk s = true := by
  intro s hs
  unfold boundsStep2 at h
  have hne : sd.vartype ≠ "integer" := by rw [h1]; decide
  rw [if_neg hne, if_pos h1] at h
  simp only [hs] at h
  cases hp : pyFloatOk s with
  | true => rfl
  | false => simp only [pyFloatE, hp] at h; simp [Except.map] at h

theorem boundsStep3_ok_cond {sd : SettingData} {prop p' : PropDict}
    (h : boundsStep3 sd prop = .ok p') (h1 : sd.vartype = "real") :
    ∀ s, sd.max_val = some s → pyFloatOk s = true := by
  intro s hs
  unfold boundsStep3 at h
  rw [if_pos h1] at h
  simp only [hs] at h
  cases hp : pyFloatOk s with
  | true => rfl
  | false => simp only [pyFloatE, hp] at h; simp [Except.map] at h

/-- When some present bound fails to parse, the property build raises. -/
theorem buildProp_not_ok_of_boundsBad (n : String) (sd : SettingData)
    (h : boundParseFails sd = true) : ∀ r, buildProp n sd ≠ .ok r := by
  intro r hr
  obtain ⟨p, w⟩ := r
  obtain ⟨p3, p4, p5, h3, h4, h5, _, _⟩ := buildProp_decomp hr
  simp only [boundParseFails, Bool.or_eq_true, Bool.and_eq_true,
    beq_iff_eq] at h
  rcases h with ⟨hvt, hbad⟩ | ⟨hvt, hbad⟩
  · rcases hbad with hb | hb
    · cases hm : sd.min_val with
      | none => simp only [hm] at hb; cases hb
      | some s =>
        simp only [hm] at hb
        have := boundsStep1_ok_cond h3 hvt s hm
        simp [Option.isNone_iff_eq_none] at hb
        rw [hb] at this
        simp at this
    · cases hm : sd.max_val with
      | none => simp only [hm] at hb; cases hb
      | some s =>
        simp only [hm] at hb
        have := boundsStep2_ok_cond_int h4 hvt s hm
        simp [Option.isNone_iff_eq_none] at hb
        rw [hb] at this
        simp at this
  · rcases hbad with hb | hb
    · cases hm : sd.min_val with
      | none => simp only [hm] at hb; cases hb
      | some s =>
        simp only [hm] at hb
        have := boundsStep2_ok_cond_real h4 hvt s hm
        simp at hb
        rw [this] at hb
        cases hb
    · cases hm : sd.max_val with
      | none => simp only [hm] at hb; cases hb
      | some s =>
        simp only [hm] at hb
        have := boundsStep3_ok_cond h5 hvt s hm
        simp at hb
        rw [this] at hb
        cases hb

/-! ### Success and failure of the whole generator -/

theorem processOne_ok_of_boundsOk {db : DB}
    (hb : ∀ q ∈ db, boundParseFails q.2 = false) (n : String) :
    ∃ r, processOne db n = .ok r := by
  cases hl : db.lookup n with
  | none => exact ⟨(none, [missingWarn n]), by simp only [processOne, hl]⟩
  | some sd =>
    obtain ⟨r, hr⟩ := buildProp_ok_of_boundsOk n sd (hb (n, sd) (lookup_mem hl))
    exact ⟨(some r.1, r.2), by
      obtain ⟨p, w⟩ := r
      simp only [processOne, hl, hr, Except.map]⟩

theorem processCategory_ok_of_boundsOk {db : DB}
    (hb : ∀ q ∈ db, boundParseFails q.2 = false) (c : String)
    (l : List String) : ∃ r, processCategory db c l = .ok r := by
  obtain ⟨q, hq⟩ := processSorted_ok (pySorted l) []
    (fun n _ => processOne_ok_of_boundsOk hb n)
  obtain ⟨props, ws⟩ := q
  exact ⟨_, by unfold processCategory; rw [hq]; rfl⟩

/-- Malformed defaults never abort: when every present bound parses,
schema generation succeeds no matter what the reset values are. -/
theorem generate_ok_of_boundsOk (db : DB) (cats : List (String × List String))
    (hb : ∀ q ∈ db, boundParseFails q.2 = false) :
    ∃ r, generate_schema_yaml db cats = .ok r := by
  obtain ⟨q, hq⟩ := genCats_ok cats []
    (fun p _ => processCategory_ok_of_boundsOk hb p.1 p.2)
  obtain ⟨props, ws⟩ := q
  exact ⟨_, by unfold generate_schema_yaml; rw [hq]; rfl⟩

theorem processOne_not_ok {db : DB} {n : String} {sd : SettingData}
    (hl : db.lookup n = some sd)
    (hbad : ∀ r, buildProp n sd ≠ .ok r) :
    ∀ r, processOne db n ≠ .ok r := by
  intro r hr
  simp only [processOne, hl] at hr
  cases hbp : buildProp n sd with
  | error e => rw [hbp] at hr; simp [Except.map] at hr
  | ok q => exact hbad q hbp

theorem processCategory_not_ok {db : DB} {c n : String} {l : List String}
    (hn : n ∈ l) (hbad : ∀ r, processOne db n ≠ .ok r) :
    ∀ r, processCategory db c l ≠ .ok r := by
  intro r hr
  have hbad' : ∀ r, processOne db n ≠ .ok r := hbad
  obtain ⟨e, he⟩ :=
    processSorted_error (pySorted l) [] (mem_pySorted.mpr hn) hbad'
  unfold processCategory at hr
  rw [he] at hr
  simp [Except.map] at hr

/-- A record in some category whose bound fails to parse aborts the
whole generation with an uncaught exception. -/
theorem generate_error_of_boundsBad {db : DB}
    {cats : List (String × List String)} {c n : String} {l : List String}
    {sd : SettingData} (hcat : (c, l) ∈ cats) (hn : n ∈ l)
    (hl : db.lookup n = some sd) (hbad : boundParseFails sd = true) :
    ∃ e, generate_schema_yaml db cats = .error e := by
  obtain ⟨e, he⟩ := genCats_error cats [] hcat
    (processCategory_not_ok hn
      (processOne_not_ok hl (buildProp_not_ok_of_boundsBad n sd hbad)))
  exact ⟨e, by unfold generate_schema_yaml; rw [he]; rfl⟩

/-! ### Concrete data for witnesses and counterexamples -/

/-- An integer-typed record whose `min_val` does not parse. -/
def badBoundRow : SettingData :=
  { short_desc := "d", vartype := "integer", unit := none
    min_val := some "abc", max_val := none, enumvals := none
    reset_val := some "1" }

/-- The `shared_buffers` record of the specification's test scenario. -/
def sbRow : SettingData :=
  { short_desc := "Sets the number of shared memory buffers used by the server."
    vartype := "integer", unit := some "8kB", min_val := some "16"
    max_val := some "2147483647", enumvals := none, reset_val := some "16384" }

/-- The `log_min_messages` record of the specification's test scenario. -/
def lmRow : SettingData :=
  { short_desc := "Sets the message levels that are logged."
    vartype := "enum", unit := none, min_val := none, max_val := none
    enumvals := some ["debug5", "debug1", "info", "warning"]
    reset_val := some "warning" }

def dbW : DB := [("shared_buffers", sbRow), ("log_min_messages", lmRow)]

def catsW : List (String × List String) :=
  [("memory", ["shared_buffers"]), ("logging", ["log_min_messages"])]

/-- An integer record with a malformed reset value but good bounds. -/
def badDefaultRow : SettingData :=
  { short_desc := "d", vartype := "integer", unit := none
    min_val := some "0", max_val := some "10", enumvals := none
    reset_val := some "oops" }

/-! ### The claims -/

/-- Claim C1, counterexample: for an integer record whose `minValue` is
the unparseable string `"abc"`, the generator does not warn-and-omit
and continue; it raises the conversion error and produces no document
at all. -/
theorem c1_counterexample :
    generate_schema_yaml [("s", badBoundRow)] [("c", ["s"])] =
      Except.error "invalid literal for int() with base 10: \x27abc\x27" ∧
    ∀ r, generate_schema_yaml [("s", badBoundRow)] [("c", ["s"])] ≠
      Except.ok r := by
  have h0 : generate_schema_yaml [("s", badBoundRow)] [("c", ["s"])] =
      Except.error "invalid literal for int() with base 10: \x27abc\x27" := by
    rfl
  refine ⟨h0, ?_⟩
  intro r h
  rw [h0] at h
  exact Except.noConfusion h

/-- Claim C1, amended: for every parameter record of varType `integer`
or `real` whose `minValue` or `maxValue` is present but not parseable
as the matching numeric type, the Schema Generator does NOT treat it
like a malformed default: the conversion sits outside the `try` block,
so it raises an uncaught exception that aborts generation of the whole
document (no warning, no omitted bound, no partial output). -/
theorem c1_amended_bound_aborts (db : DB)
    (cats : List (String × List String)) (c name : String)
    (l : List String) (sd : SettingData) (hcat : (c, l) ∈ cats)
    (hn : name ∈ l) (hdb : db.lookup name = some sd)
    (hbad : boundParseFails sd = true) :
    ∃ e, generate_schema_yaml db cats = .error e :=
  generate_error_of_boundsBad hcat hn hdb hbad

theorem c1_witness :
    ("c", ["s"]) ∈ [("c", ["s"])] ∧ "s" ∈ ["s"] ∧
    ([("s", badBoundRow)] : DB).lookup "s" = some badBoundRow ∧
    boundParseFails badBoundRow = true ∧
    ∃ e, generate_schema_yaml [("s", badBoundRow)] [("c", ["s"])] =
      .error e :=
  ⟨by simp, by simp, by rfl, by rfl,
    c1_amended_bound_aborts [("s", badBoundRow)] [("c", ["s"])] "c" "s"
      ["s"] badBoundRow (by simp) (by simp) (by rfl) (by rfl)⟩

/-- Claim C3, counterexample: on an empty document (parsed as `null`),
the Category Source does not print the specific diagnostic of line 31;
`'categories' in None` raises an uncaught `TypeError` (traceback,
nonzero exit, but no diagnostic). -/
theorem c3_counterexample :
    get_yaml_categories "source/parameters.yaml" Yaml.null =
      CatResult.typeError ∧
    ∀ m, get_yaml_categories "source/parameters.yaml" Yaml.null ≠
      CatResult.errorExit m := by
  refine ⟨by rfl, ?_⟩
  intro m h
  have h0 : get_yaml_categories "source/parameters.yaml" Yaml.null =
      CatResult.typeError := by rfl
  rw [h0] at h
  exact CatResult.noConfusion h

/-- Claim C3, amended: whenever the top-level `categories` key is
absent or its value is not a mapping, the Category Source prints the
specific diagnostic and exits with status 1 with no partial output —
for every mapping top level, and also for the non-mapping list and
string top levels on which Python's membership test returns false
(a list with no element equal to the string `categories`, a string not
containing `categories` as a substring). The only exceptions, where
the check itself raises an unhandled `TypeError` instead of printing
the diagnostic, are: a top level that is null (the empty document), a
boolean or a number, a list containing the string `categories` as an
element, and a string containing `categories` as a substring. -/
theorem c3_amended_characterization (path : String) :
    (∀ kvs : List (String × Yaml), (kvs.lookup "categories" = none ∨
        ∃ v, kvs.lookup "categories" = some v ∧ ∀ m, v ≠ Yaml.map m) →
      get_yaml_categories path (Yaml.map kvs) =
        CatResult.errorExit (catsErrMsg path)) ∧
    (∀ xs : List Yaml, xs.any isCategoriesStr = false →
      get_yaml_categories path (Yaml.seq xs) =
        CatResult.errorExit (catsErrMsg path)) ∧
    (∀ s : String, chIsInfixOf "categories".toList s.toList = false →
      get_yaml_categories path (Yaml.str s) =
        CatResult.errorExit (catsErrMsg path)) ∧
    get_yaml_categories path Yaml.null = CatResult.typeError ∧
    (∀ b, get_yaml_categories path (Yaml.bool b) = CatResult.typeError) ∧
    (∀ n, get_yaml_categories path (Yaml.int n) = CatResult.typeError) ∧
    (∀ f, get_yaml_categories path (Yaml.float f) = CatResult.typeError) ∧
    (∀ xs : List Yaml, xs.any isCategoriesStr = true →
      get_yaml_categories path (Yaml.seq xs) = CatResult.typeError) ∧
    (∀ s : String, chIsInfixOf "categories".toList s.toList = true →
      get_yaml_categories path (Yaml.str s) = CatResult.typeError) := by
  refine ⟨?_, ?_, ?_, rfl, fun b => rfl, fun n => rfl, fun f => rfl,
    ?_, ?_⟩
  · intro kvs h
    simp only [get_yaml_categories]
    rcases h with h | ⟨v, hv, hnm⟩
    · simp only [h]
    · cases v with
      | map m => exact absurd rfl (hnm m)
      | null => simp only [hv]
      | bool b => simp only [hv]
      | int n => simp only [hv]
      | float s => simp only [hv]
      | str s => simp only [hv]
      | seq xs => simp only [hv]
  · intro xs h
    simp [get_yaml_categories, h]
  · intro s h
    show (if chIsInfixOf "categories".toList s.toList then
        CatResult.typeError
      else CatResult.errorExit (catsErrMsg path)) =
      CatResult.errorExit (catsErrMsg path)
    rw [h]
    rfl
  · intro xs h
    simp [get_yaml_categories, h]
  · intro s h
    show (if chIsInfixOf "categories".toList s.toList then
        CatResult.typeError
      else CatResult.errorExit (catsErrMsg path)) =
      CatResult.typeError
    rw [h]
    rfl

theorem c3_witness :
    get_yaml_categories "source/parameters.yaml" (Yaml.map []) =
      CatResult.errorExit (catsErrMsg "source/parameters.yaml") ∧
    get_yaml_categories "source/parameters.yaml"
      (Yaml.seq [Yaml.str "memory"]) =
      CatResult.errorExit (catsErrMsg "source/parameters.yaml") ∧
    get_yaml_categories "source/parameters.yaml" (Yaml.str "x") =
      CatResult.errorExit (catsErrMsg "source/parameters.yaml") ∧
    get_yaml_categories "source/parameters.yaml" Yaml.null =
      CatResult.typeError :=
  have h := c3_amended_characterization "source/parameters.yaml"
  ⟨h.1 [] (Or.inl (by rfl)), h.2.1 [Yaml.str "memory"] (by rfl),
    h.2.2.1 "x" (by rfl), h.2.2.2.1⟩

/-- Claim C4: a reset value that fails to convert to the target
numeric primitive — an `integer` record whose `resetValue` is not a
parseable integer, or a `real` record whose `resetValue` is not a
parseable float (the only conversions of lines 82-92 that can fail) —
is tolerated: the warning of line 92 is emitted, the `default` key is
omitted from that property (while `type` is still present), and —
provided the bounds themselves parse — generation of the whole
document still succeeds. -/
theorem c4_malformed_default_tolerated (db : DB)
    (cats : List (String × List String)) (name : String)
    (sd : SettingData) (s : String) (hdb : db.lookup name = some sd)
    (hrv : sd.reset_val = some s)
    (hbad : (sd.vartype = "integer" ∧ pyInt s = none) ∨
      (sd.vartype = "real" ∧ pyFloatOk s = false))
    (hbounds : ∀ q ∈ db, boundParseFails q.2 = false) :
    (∃ p, buildProp name sd = .ok (p, [convWarn s name]) ∧
      p.lookup "default" = none ∧ (p.lookup "type").isSome = true) ∧
    ∃ r, generate_schema_yaml db cats = .ok r := by
  have hsdok : boundParseFails sd = false := hbounds (name, sd) (lookup_mem hdb)
  obtain ⟨⟨p, w⟩, hok⟩ := buildProp_ok_of_boundsOk name sd hsdok
  obtain ⟨p3, p4, p5, h3, h4, h5, hp, hw⟩ := buildProp_decomp hok
  have hds : defaultStep name sd (baseProp sd) =
      (baseProp sd, [convWarn s name]) := by
    rcases hbad with ⟨hvt, hb⟩ | ⟨hvt, hb⟩
    · simp [defaultStep, hvt, hrv, hb]
    · simp [defaultStep, hvt, hrv, hb]
  constructor
  · refine ⟨p, ?_, ?_, ?_⟩
    · rw [hok, hw, hds]
    · rw [hp, enumStep_lookup sd p5 (by decide),
        boundsStep3_lookup h5 (by decide),
        boundsStep2_lookup h4 (by decide) (by decide),
        boundsStep1_lookup h3 (by decide), hds]
      exact baseProp_lookup_other sd (by decide) (by decide)
    · rw [hp, enumStep_lookup sd p5 (by decide),
        boundsStep3_lookup h5 (by decide),
        boundsStep2_lookup h4 (by decide) (by decide),
        boundsStep1_lookup h3 (by decide), hds,
        baseProp_lookup_type sd]
      rfl
  · exact generate_ok_of_boundsOk db cats hbounds

/-- A real-typed record whose reset value is not a parseable float but
whose bound parses. -/
def badRealDefaultRow : SettingData :=
  { short_desc := "d", vartype := "real", unit := none
    min_val := some "0.5", max_val := none, enumvals := none
    reset_val := some "oops" }

theorem c4_witness :
    (([("s", badDefaultRow)] : DB).lookup "s" = some badDefaultRow ∧
      badDefaultRow.reset_val = some "oops" ∧
      ((badDefaultRow.vartype = "integer" ∧ pyInt "oops" = none) ∨
        (badDefaultRow.vartype = "real" ∧ pyFloatOk "oops" = false)) ∧
      (∀ q ∈ ([("s", badDefaultRow)] : DB), boundParseFails q.2 = false) ∧
      ((∃ p, buildProp "s" badDefaultRow = .ok (p, [convWarn "oops" "s"]) ∧
          p.lookup "default" = none ∧ (p.lookup "type").isSome = true) ∧
        ∃ r, generate_schema_yaml [("s", badDefaultRow)] [("c", ["s"])] =
          .ok r)) ∧
    (([("r", badRealDefaultRow)] : DB).lookup "r" =
        some badRealDefaultRow ∧
      badRealDefaultRow.reset_val = some "oops" ∧
      ((badRealDefaultRow.vartype = "integer" ∧ pyInt "oops" = none) ∨
        (badRealDefaultRow.vartype = "real" ∧ pyFloatOk "oops" = false)) ∧
      (∀ q ∈ ([("r", badRealDefaultRow)] : DB),
        boundParseFails q.2 = false) ∧
      ((∃ p, buildProp "r" badRealDefaultRow =
            .ok (p, [convWarn "oops" "r"]) ∧
          p.lookup "default" = none ∧ (p.lookup "type").isSome = true) ∧
        ∃ r, generate_schema_yaml [("r", badRealDefaultRow)]
          [("c", ["r"])] = .ok r)) :=
  ⟨⟨by rfl, by rfl, Or.inl ⟨by rfl, by rfl⟩,
      by intro q hq; simp at hq; subst hq; rfl,
      c4_malformed_default_tolerated [("s", badDefaultRow)] [("c", ["s"])]
        "s" badDefaultRow "oops" (by rfl) (by rfl)
        (Or.inl ⟨by rfl, by rfl⟩)
        (by intro q hq; simp at hq; subst hq; rfl)⟩,
    ⟨by rfl, by rfl, Or.inr ⟨by rfl, by rfl⟩,
      by intro q hq; simp at hq; subst hq; rfl,
      c4_malformed_default_tolerated [("r", badRealDefaultRow)]
        [("c", ["r"])] "r" badRealDefaultRow "oops" (by rfl) (by rfl)
        (Or.inr ⟨by rfl, by rfl⟩)
        (by intro q hq; simp at hq; subst hq; rfl)⟩⟩

/-- A sorted difference list is empty exactly when the left name set is
contained in the right one. -/
theorem diff_nil_iff (keys l : List String) :
    pySorted (l.dedup.filter (fun x => ! keys.contains x)) = [] ↔
      ∀ x ∈ l, x ∈ keys := by
  rw [pySorted_eq_nil_iff, List.filter_eq_nil_iff]
  constructor
  · intro h x hx
    have := h x (List.mem_dedup.mpr hx)
    simp only [Bool.not_eq_true', Bool.not_eq_false] at this
    exact List.elem_iff.mp this
  · intro h x hx
    simp only [Bool.not_eq_true', Bool.not_eq_false]
    exact List.elem_iff.mpr (h x (List.mem_dedup.mp hx))

/-- Claim C2: schema generation is invoked iff the union of the
category map's name lists equals the settings mapping's key set
exactly; when the two name sets differ, no schema document is
produced, no output file is written, and the exit status is 1. -/
theorem c2_reconciliation_iff (db : DB)
    (cats : List (String × List String)) :
    ((mainCompare db cats).schemaInvoked = true ↔
      ∀ x, x ∈ yamlSettingsOf cats ↔ x ∈ db.map Prod.fst) ∧
    ((mainCompare db cats).schemaInvoked = false →
      (mainCompare db cats).fileWritten = false ∧
      (mainCompare db cats).exitCode = 1) := by
  constructor
  · simp only [mainCompare]
    by_cases hcond :
        pySorted ((yamlSettingsOf cats).dedup.filter
          (fun x => ! (db.map Prod.fst).contains x)) = [] ∧
        pySorted ((db.map Prod.fst).dedup.filter
          (fun x => ! (yamlSettingsOf cats).contains x)) = []
    · rw [if_pos hcond]
      simp only [MainOutcome.schemaInvoked]
      constructor
      · intro _ x
        exact ⟨fun hx => (diff_nil_iff _ _).mp hcond.1 x hx,
          fun hx => (diff_nil_iff _ _).mp hcond.2 x hx⟩
      · intro _; trivial
    · rw [if_neg hcond]
      simp only [MainOutcome.schemaInvoked]
      constructor
      · intro h; cases h
      · intro hx
        exact absurd ⟨(diff_nil_iff _ _).mpr (fun x hx' => (hx x).mp hx'),
          (diff_nil_iff _ _).mpr (fun x hx' => (hx x).mpr hx')⟩ hcond
  · intro h
    cases ho : mainCompare db cats with
    | generated r =>
      rw [ho] at h
      simp [MainOutcome.schemaInvoked] at h
    | mismatch a b => exact ⟨rfl, rfl⟩

theorem c2_witness :
    ((mainCompare dbW catsW).schemaInvoked = true ↔
      ∀ x, x ∈ yamlSettingsOf catsW ↔ x ∈ dbW.map Prod.fst) ∧
    ((mainCompare dbW catsW).schemaInvoked = false →
      (mainCompare dbW catsW).fileWritten = false ∧
      (mainCompare dbW catsW).exitCode = 1) :=
  c2_reconciliation_iff dbW catsW

/-- Claim C6: for a `bool`-typed record with a non-null reset value,
the generated `default` is `true` exactly when the reset value is the
literal `"on"`, and `false` for any other literal. -/
theorem c6_bool_default (name : String) (sd : SettingData) (rv : String)
    (hvt : sd.vartype = "bool") (hrv : sd.reset_val = some rv)
    (p : PropDict) (w : List String)
    (h : buildProp name sd = .ok (p, w)) :
    p.lookup "default" = some (JsonValue.bool (rv == "on")) ∧
    (rv ≠ "on" → p.lookup "default" = some (JsonValue.bool false)) := by
  have hmain : p.lookup "default" = some (JsonValue.bool (rv == "on")) := by
    simp only [buildProp, defaultStep, boundsStep1, boundsStep2,
      boundsStep3, enumStep, hvt, hrv] at h
    simp at h
    rw [← h.1]
    exact lookup_dictInsert_self _ _ _
  refine ⟨hmain, fun hne => ?_⟩
  rw [hmain, beq_eq_false_iff_ne.mpr hne]

def boolRow : SettingData :=
  { short_desc := "b", vartype := "bool", unit := none, min_val := none
    max_val := none, enumvals := none, reset_val := some "off" }

def boolPropW : PropDict :=
  [("type", JsonValue.str "boolean"), ("description", JsonValue.str "b"),
   ("default", JsonValue.bool false)]

theorem c6_witness :
    boolRow.vartype = "bool" ∧ boolRow.reset_val = some "off" ∧
    buildProp "s" boolRow = .ok (boolPropW, []) ∧
    (boolPropW.lookup "default" = some (JsonValue.bool ("off" == "on")) ∧
      (("off" : String) ≠ "on" →
        boolPropW.lookup "default" = some (JsonValue.bool false))) :=
  ⟨rfl, rfl, by rfl,
    c6_bool_default "s" boolRow "off" rfl rfl boolPropW [] (by rfl)⟩

/-- Claim C8: the generated property carries an `enum` field exactly
when varType is `enum` and the record's `enumValues` is non-empty, and
then the values are copied verbatim, preserving source order. -/
theorem c8_enum_verbatim (name : String) (sd : SettingData) (p : PropDict)
    (w : List String) (h : buildProp name sd = .ok (p, w)) :
    (∀ v, p.lookup "enum" = some v →
      sd.vartype = "enum" ∧
      ∃ evs, sd.enumvals = some evs ∧ evs ≠ [] ∧ v = .strList evs) ∧
    (sd.vartype = "enum" → ∀ evs, sd.enumvals = some evs → evs ≠ [] →
      p.lookup "enum" = some (.strList evs)) := by
  obtain ⟨p3, p4, p5, h3, h4, h5, hp, hw⟩ := buildProp_decomp h
  have h5e : p5.lookup "enum" = none := by
    rw [boundsStep3_lookup h5 (by decide),
      boundsStep2_lookup h4 (by decide) (by decide),
      boundsStep1_lookup h3 (by decide),
      defaultStep_fst_lookup name sd _ (by decide)]
    exact baseProp_lookup_other sd (by decide) (by decide)
  constructor
  · intro v hv
    rw [hp] at hv
    unfold enumStep at hv
    by_cases h1 : sd.vartype = "enum"
    · rw [if_pos h1] at hv
      cases he : sd.enumvals with
      | none =>
        simp only [he] at hv
        rw [h5e] at hv
        cases hv
      | some evs =>
        simp only [he] at hv
        by_cases hne : evs = []
        · rw [if_pos hne] at hv
          rw [h5e] at hv
          cases hv
        · rw [if_neg hne, lookup_dictInsert_self] at hv
          injection hv with hv
          exact ⟨h1, evs, rfl, hne, hv.symm⟩
    · rw [if_neg h1] at hv
      rw [h5e] at hv
      cases hv
  · intro h1 evs he hne
    rw [hp]
    unfold enumStep
    rw [if_pos h1]
    simp only [he]
    rw [if_neg hne]
    exact lookup_dictInsert_self _ _ _

def enumPropW : PropDict :=
  [("type", JsonValue.str "string"),
   ("description", JsonValue.str "Sets the message levels that are logged."),
   ("default", JsonValue.str "warning"),
   ("enum", JsonValue.strList ["debug5", "debug1", "info", "warning"])]

theorem c8_witness :
    buildProp "log_min_messages" lmRow = .ok (enumPropW, []) ∧
    ((∀ v, enumPropW.lookup "enum" = some v →
        lmRow.vartype = "enum" ∧
        ∃ evs, lmRow.enumvals = some evs ∧ evs ≠ [] ∧
          v = .strList evs) ∧
      (lmRow.vartype = "enum" → ∀ evs, lmRow.enumvals = some evs →
        evs ≠ [] → enumPropW.lookup "enum" = some (.strList evs))) :=
  ⟨by rfl, c8_enum_verbatim "log_min_messages" lmRow enumPropW [] (by rfl)⟩

theorem generate_ok_props {db : DB} {cats : List (String × List String)}
    {r : SchemaDoc × List String}
    (h : generate_schema_yaml db cats = .ok r) :
    ∃ ws, genCats db cats [] = .ok (r.1.properties, ws) := by
  unfold generate_schema_yaml at h
  cases hgc : genCats db cats [] with
  | error e => rw [hgc] at h; simp [Except.map] at h
  | ok q =>
    obtain ⟨props, ws⟩ := q
    rw [hgc] at h
    simp only [Except.map, Except.ok.injEq] at h
    exact ⟨ws, by rw [← h]⟩

/-- Claim C10: every property descriptor emitted by the generator
contains both a `type` and a `description` key, whatever optional
fields are present. -/
theorem c10_type_description_present (db : DB)
    (cats : List (String × List String)) (r : SchemaDoc × List String)
    (h : generate_schema_yaml db cats = .ok r) :
    ∀ q ∈ r.1.properties, ∀ pr ∈ q.2.properties,
      (pr.2.lookup "type").isSome = true ∧
      (pr.2.lookup "description").isSome = true := by
  have hbp : ∀ (n : String) (sd : SettingData) (p : PropDict)
      (w : List String), buildProp n sd = .ok (p, w) →
      (p.lookup "type").isSome = true ∧
      (p.lookup "description").isSome = true := by
    intro n sd p w hb
    obtain ⟨p3, p4, p5, h3, h4, h5, hp, _⟩ := buildProp_decomp hb
    constructor
    · rw [hp, enumStep_lookup sd p5 (by decide),
        boundsStep3_lookup h5 (by decide),
        boundsStep2_lookup h4 (by decide) (by decide),
        boundsStep1_lookup h3 (by decide),
        defaultStep_fst_lookup n sd _ (by decide),
        baseProp_lookup_type sd]
      rfl
    · rw [hp, enumStep_lookup sd p5 (by decide),
        boundsStep3_lookup h5 (by decide),
        boundsStep2_lookup h4 (by decide) (by decide),
        boundsStep1_lookup h3 (by decide),
        defaultStep_fst_lookup n sd _ (by decide),
        baseProp_lookup_description sd]
      rfl
  intro q hq pr hpr
  obtain ⟨ws, hg⟩ := generate_ok_props h
  rcases genCats_mem_origin hg q hq with hin | ⟨l, w, hmem, hpc⟩
  · exact absurd hin (List.not_mem_nil q)
  · obtain ⟨ws', hps⟩ := processCategory_ok_props hpc
    rcases processSorted_mem_origin hps pr hpr with hin' | ⟨sd, w', hsd, hb⟩
    · exact absurd hin' (List.not_mem_nil pr)
    · exact hbp pr.1 sd pr.2 w' hb

theorem c10_witness :
    ∃ r, generate_schema_yaml dbW catsW = .ok r ∧
      ∀ q ∈ r.1.properties, ∀ pr ∈ q.2.properties,
        (pr.2.lookup "type").isSome = true ∧
        (pr.2.lookup "description").isSome = true := by
  obtain ⟨r, hr⟩ := generate_ok_of_boundsOk dbW catsW
    (by intro q hq; simp [dbW] at hq; rcases hq with h | h <;> subst h <;> rfl)
  exact ⟨r, hr, c10_type_description_present dbW catsW r hr⟩

/-! ### Case characterizations of the bound steps -/

theorem boundsStep1_id {sd : SettingData} {prop p' : PropDict}
    (h : boundsStep1 sd prop = .ok p') (h1 : sd.vartype ≠ "integer") :
    p' = prop := by
  unfold boundsStep1 at h
  rw [if_neg h1] at h
  cases h; rfl

theorem boundsStep1_int_none {sd : SettingData} {prop p' : PropDict}
    (h : boundsStep1 sd prop = .ok p') (h1 : sd.vartype = "integer")
    (hm : sd.min_val = none) : p' = prop := by
  unfold boundsStep1 at h
  rw [if_pos h1] at h
  simp only [hm] at h
  cases h; rfl

theorem boundsStep1_int_some {sd : SettingData} {prop p' : PropDict}
    {s : String} (h : boundsStep1 sd prop = .ok p')
    (h1 : sd.vartype = "integer") (hm : sd.min_val = some s) :
    ∃ m, pyInt s = some m ∧ p' = dictInsert prop "minimum" (.int m) := by
  unfold boundsStep1 at h
  rw [if_pos h1] at h
  simp only [hm] at h
  cases hp : pyInt s with
  | none => simp only [pyIntE, hp] at h; simp [Except.map] at h
  | some m =>
    simp only [pyIntE, hp, Except.map, Except.ok.injEq] at h
    exact ⟨m, rfl, h.symm⟩

theorem boundsStep2_id {sd : SettingData} {prop p' : PropDict}
    (h : boundsStep2 sd prop = .ok p') (h1 : sd.vartype ≠ "integer")
    (h2 : sd.vartype ≠ "real") : p' = prop := by
  unfold boundsStep2 at h
  rw [if_neg h1, if_neg h2] at h
  cases h; rfl

theorem boundsStep2_int_none {sd : SettingData} {prop p' : PropDict}
    (h : boundsStep2 sd prop = .ok p') (h1 : sd.vartype = "integer")
    (hm : sd.max_val = none) : p' = prop := by
  unfold boundsStep2 at h
  rw [if_pos h1] at h
  simp only [hm] at h
  cases h; rfl

theorem boundsStep2_int_some {sd : SettingData} {prop p' : PropDict}
    {s : String} (h : boundsStep2 sd prop = .ok p')
    (h1 : sd.vartype = "integer") (hm : sd.max_val = some s) :
    ∃ m, pyInt s = some m ∧ p' = dictInsert prop "maximum" (.int m) := by
  unfold boundsStep2 at h
  rw [if_pos h1] at h
  simp only [hm] at h
  cases hp : pyInt s with
  | none => simp only [pyIntE, hp] at h; simp [Except.map] at h
  | some m =>
    simp only [pyIntE, hp, Except.map, Except.ok.injEq] at h
    exact ⟨m, rfl, h.symm⟩

theorem boundsStep2_real_none {sd : SettingData} {prop p' : PropDict}
    (h : boundsStep2 sd prop = .ok p') (h2 : sd.vartype = "real")
    (hm : sd.min_val = none) : p' = prop := by
  unfold boundsStep2 at h
  have h1 : sd.vartype ≠ "integer" := by rw [h2]; decide
  rw [if_neg h1, if_pos h2] at h
  simp only [hm] at h
  cases h; rfl

theorem boundsStep2_real_some {sd : SettingData} {prop p' : PropDict}
    {s : String} (h : boundsStep2 sd prop = .ok p')
    (h2 : sd.vartype = "real") (hm : sd.min_val = some s) :
    pyFloatOk s = true ∧ p' = dictInsert prop "minimum" (.real s) := by
  unfold boundsStep2 at h
  have h1 : sd.vartype ≠ "integer" := by rw [h2]; decide
  rw [if_neg h1, if_pos h2] at h
  simp only [hm] at h
  cases hp : pyFloatOk s with
  | false => simp only [pyFloatE, hp] at h; simp [Except.map] at h
  | true =>
    simp only [pyFloatE, hp, if_true, Except.map, Except.ok.injEq] at h
    exact ⟨rfl, h.symm⟩

theorem boundsStep3_id {sd : SettingData} {prop p' : PropDict}
    (h : boundsStep3 sd prop = .ok p') (h1 : sd.vartype ≠ "real") :
    p' = prop := by
  unfold boundsStep3 at h
  rw [if_neg h1] at h
  cases h; rfl

theorem boundsStep3_real_none {sd : SettingData} {prop p' : PropDict}
    (h : boundsStep3 sd prop = .ok p') (h1 : sd.vartype = "real")
    (hm : sd.max_val = none) : p' = prop := by
  unfold boundsStep3 at h
  rw [if_pos h1] at h
  simp only [hm] at h
  cases h; rfl

theorem boundsStep3_real_some {sd : SettingData} {prop p' : PropDict}
    {s : String} (h : boundsStep3 sd prop = .ok p')
    (h1 : sd.vartype = "real") (hm : sd.max_val = some s) :
    pyFloatOk s = true ∧ p' = dictInsert prop "maximum" (.real s) := by
  unfold boundsStep3 at h
  rw [if_pos h1] at h
  simp only [hm] at h
  cases hp : pyFloatOk s with
  | false => simp only [pyFloatE, hp] at h; simp [Except.map] at h
  | true =>
    simp only [pyFloatE, hp, if_true, Except.map, Except.ok.injEq] at h
    exact ⟨rfl, h.symm⟩

theorem defaultStep_base_none (n : String) (sd : SettingData) {k : String}
    (h1 : k ≠ "default") (h2 : k ≠ "type") (h3 : k ≠ "description") :
    ((defaultStep n sd (baseProp sd)).1).lookup k = none := by
  rw [defaultStep_fst_lookup n sd _ h1]
  exact baseProp_lookup_other sd h2 h3

/-- Claim C7: a generated property carries `minimum` / `maximum` only
when varType is `integer` or `real`; each bound is present exactly
when the corresponding source bound is, independently of the other;
and the emitted bound value is typed to match varType (`int` for
`integer`, the parsed float for `real`). -/
theorem c7_bounds_typed (name : String) (sd : SettingData) (p : PropDict)
    (w : List String) (h : buildProp name sd = .ok (p, w)) :
    (sd.vartype ≠ "integer" → sd.vartype ≠ "real" →
      p.lookup "minimum" = none ∧ p.lookup "maximum" = none) ∧
    (sd.vartype = "integer" →
      (sd.min_val = none → p.lookup "minimum" = none) ∧
      (∀ s, sd.min_val = some s →
        ∃ m, pyInt s = some m ∧ p.lookup "minimum" = some (.int m)) ∧
      (sd.max_val = none → p.lookup "maximum" = none) ∧
      (∀ s, sd.max_val = some s →
        ∃ m, pyInt s = some m ∧ p.lookup "maximum" = some (.int m))) ∧
    (sd.vartype = "real" →
      (sd.min_val = none → p.lookup "minimum" = none) ∧
      (∀ s, sd.min_val = some s →
        pyFloatOk s = true ∧ p.lookup "minimum" = some (.real s)) ∧
      (sd.max_val = none → p.lookup "maximum" = none) ∧
      (∀ s, sd.max_val = some s →
        pyFloatOk s = true ∧ p.lookup "maximum" = some (.real s))) := by
  obtain ⟨p3, p4, p5, h3, h4, h5, hp, hw⟩ := buildProp_decomp h
  have hmin0 : ((defaultStep name sd (baseProp sd)).1).lookup "minimum" =
      none := defaultStep_base_none name sd (by decide) (by decide) (by decide)
  have hmax0 : ((defaultStep name sd (baseProp sd)).1).lookup "maximum" =
      none := defaultStep_base_none name sd (by decide) (by decide) (by decide)
  refine ⟨?_, ?_, ?_⟩
  · intro hni hnr
    have e3 := boundsStep1_id h3 hni
    have e4 := boundsStep2_id h4 hni hnr
    have e5 := boundsStep3_id h5 hnr
    constructor
    · rw [hp, enumStep_lookup sd p5 (by decide), e5, e4, e3]
      exact hmin0
    · rw [hp, enumStep_lookup sd p5 (by decide), e5, e4, e3]
      exact hmax0
  · intro h1
    have hnr : sd.vartype ≠ "real" := by rw [h1]; decide
    have e5 := boundsStep3_id h5 hnr
    have hlmin4 : p4.lookup "minimum" = p3.lookup "minimum" := by
      cases hm : sd.max_val with
      | none => rw [boundsStep2_int_none h4 h1 hm]
      | some s =>
        obtain ⟨m, hpm, he⟩ := boundsStep2_int_some h4 h1 hm
        rw [he, lookup_dictInsert]
        simp
    refine ⟨?_, ?_, ?_, ?_⟩
    · intro hm
      rw [hp, enumStep_lookup sd p5 (by decide), e5, hlmin4,
        boundsStep1_int_none h3 h1 hm]
      exact hmin0
    · intro s hm
      obtain ⟨m, hpm, he⟩ := boundsStep1_int_some h3 h1 hm
      exact ⟨m, hpm, by
        rw [hp, enumStep_lookup sd p5 (by decide), e5, hlmin4, he,
          lookup_dictInsert_self]⟩
    · intro hm
      rw [hp, enumStep_lookup sd p5 (by decide), e5,
        boundsStep2_int_none h4 h1 hm, boundsStep1_lookup h3 (by decide)]
      exact hmax0
    · intro s hm
      obtain ⟨m, hpm, he⟩ := boundsStep2_int_some h4 h1 hm
      exact ⟨m, hpm, by
        rw [hp, enumStep_lookup sd p5 (by decide), e5, he,
          lookup_dictInsert_self]⟩
  · intro h1
    have hni : sd.vartype ≠ "integer" := by rw [h1]; decide
    have e3 := boundsStep1_id h3 hni
    have hlmin5 : p5.lookup "minimum" = p4.lookup "minimum" := by
      cases hm : sd.max_val with
      | none => rw [boundsStep3_real_none h5 h1 hm]
      | some s =>
        obtain ⟨hf, he⟩ := boundsStep3_real_some h5 h1 hm
        rw [he, lookup_dictInsert]
        simp
    refine ⟨?_, ?_, ?_, ?_⟩
    · intro hm
      rw [hp, enumStep_lookup sd p5 (by decide), hlmin5,
        boundsStep2_real_none h4 h1 hm, e3]
      exact hmin0
    · intro s hm
      obtain ⟨hf, he⟩ := boundsStep2_real_some h4 h1 hm
      exact ⟨hf, by
        rw [hp, enumStep_lookup sd p5 (by decide), hlmin5, he,
          lookup_dictInsert_self]⟩
    · intro hm
      rw [hp, enumStep_lookup sd p5 (by decide),
        boundsStep3_real_none h5 h1 hm]
      cases hmn : sd.min_val with
      | none =>
        rw [boundsStep2_real_none h4 h1 hmn, e3]
        exact hmax0
      | some s =>
        obtain ⟨hf, he⟩ := boundsStep2_real_some h4 h1 hmn
        rw [he, lookup_dictInsert]
        simp only [show ("maximum" : String) = "minimum" ↔ False by simp,
          if_false]
        rw [e3]
        exact hmax0
    · intro s hm
      obtain ⟨hf, he⟩ := boundsStep3_real_some h5 h1 hm
      exact ⟨hf, by
        rw [hp, enumStep_lookup sd p5 (by decide), he,
          lookup_dictInsert_self]⟩

def sbPropW : PropDict :=
  [("type", JsonValue.str "integer"),
   ("description", JsonValue.str
     "Sets the number of shared memory buffers used by the server. (Unit: 8kB)"),
   ("default", JsonValue.int 16384),
   ("minimum", JsonValue.int 16),
   ("maximum", JsonValue.int 2147483647)]

theorem c7_witness :
    buildProp "shared_buffers" sbRow = .ok (sbPropW, []) ∧
    ((sbRow.vartype ≠ "integer" → sbRow.vartype ≠ "real" →
      sbPropW.lookup "minimum" = none ∧ sbPropW.lookup "maximum" = none) ∧
    (sbRow.vartype = "integer" →
      (sbRow.min_val = none → sbPropW.lookup "minimum" = none) ∧
      (∀ s, sbRow.min_val = some s →
        ∃ m, pyInt s = some m ∧ sbPropW.lookup "minimum" = some (.int m)) ∧
      (sbRow.max_val = none → sbPropW.lookup "maximum" = none) ∧
      (∀ s, sbRow.max_val = some s →
        ∃ m, pyInt s = some m ∧ sbPropW.lookup "maximum" = some (.int m))) ∧
    (sbRow.vartype = "real" →
      (sbRow.min_val = none → sbPropW.lookup "minimum" = none) ∧
      (∀ s, sbRow.min_val = some s →
        pyFloatOk s = true ∧ sbPropW.lookup "minimum" = some (.real s)) ∧
      (sbRow.max_val = none → sbPropW.lookup "maximum" = none) ∧
      (∀ s, sbRow.max_val = some s →
        pyFloatOk s = true ∧ sbPropW.lookup "maximum" = some (.real s)))) :=
  ⟨by rfl, c7_bounds_typed "shared_buffers" sbRow sbPropW [] (by rfl)⟩

/-- Claim C5: the schema lists categories in the declared order of the
category map, and within each category the property keys are in
strictly increasing code-point (lexicographic) order — not declaration
order. -/
theorem c5_ordering (db : DB) (cats : List (String × List String))
    (hnd : (cats.map Prod.fst).Nodup) (r : SchemaDoc × List String)
    (h : generate_schema_yaml db cats = .ok r) :
    r.1.properties.map Prod.fst = cats.map Prod.fst ∧
    ∀ q ∈ r.1.properties,
      List.Pairwise StrLt (q.2.properties.map Prod.fst) := by
  obtain ⟨ws, hg⟩ := generate_ok_props h
  constructor
  · have := genCats_keys hg (by intro c _; simp) hnd
    simpa using this
  · intro q hq
    rcases genCats_mem_origin hg q hq with hin | ⟨l, w, hmem, hpc⟩
    · exact absurd hin (List.not_mem_nil q)
    · obtain ⟨ws', hps⟩ := processCategory_ok_props hpc
      exact processSorted_keys_sorted (pySorted_sorted l) (by simp)
        (by simp) hps

def memoryCatW : CategorySchema :=
  { tag := "object"
    description := "Settings for the memory category."
    properties := [("shared_buffers", sbPropW)] }

def loggingCatW : CategorySchema :=
  { tag := "object"
    description := "Settings for the logging category."
    properties := [("log_min_messages", enumPropW)] }

def schemaW : SchemaDoc :=
  { tag := "object"
    description := "Schema for PostgreSQL configuration settings (postgresql.conf), grouped by category."
    properties := [("memory", memoryCatW), ("logging", loggingCatW)] }

theorem c5_witness :
    (catsW.map Prod.fst).Nodup ∧
    generate_schema_yaml dbW catsW = .ok (schemaW, []) ∧
    ((schemaW, ([] : List String)).1.properties.map Prod.fst =
        catsW.map Prod.fst ∧
      ∀ q ∈ (schemaW, ([] : List String)).1.properties,
        List.Pairwise StrLt (q.2.properties.map Prod.fst)) :=
  ⟨by decide, by rfl,
    c5_ordering dbW catsW (by decide) (schemaW, []) (by rfl)⟩

/-! ### Claim C9 -/

/-- Two main-comparison outcomes agree when they report the same
mismatch lists, or both generate with the same uncaught exception or
the same schema document (warnings aside). -/
def OutcomeEq : MainOutcome → MainOutcome → Prop
  | .generated x, .generated y => ExceptFstEq x y
  | .mismatch a b, .mismatch c d => a = c ∧ b = d
  | .generated _, .mismatch _ _ => False
  | .mismatch _ _, .generated _ => False

theorem pySorted_eq_of_nodup {l1 l2 : List String} (h1 : l1.Nodup)
    (h2 : l2.Nodup) (hm : ∀ x, x ∈ l1 ↔ x ∈ l2) :
    pySorted l1 = pySorted l2 := by
  have hperm : l1.Perm l2 := (List.perm_ext_iff_of_nodup h1 h2).mpr hm
  exact List.eq_of_perm_of_sorted
    (((pySorted_perm l1).trans hperm).trans (pySorted_perm l2).symm)
    (pySorted_sorted _) (pySorted_sorted _)

theorem mem_yamlSettingsOf_dedupLists {x : String}
    {cats : List (String × List String)} :
    x ∈ yamlSettingsOf (dedupLists cats) ↔ x ∈ yamlSettingsOf cats := by
  simp only [yamlSettingsOf, dedupLists, List.map_map, List.mem_flatten,
    List.mem_map]
  constructor
  · rintro ⟨l, ⟨⟨pr, hpr, hl⟩, hx⟩⟩
    exact ⟨pr.2, ⟨pr, hpr, rfl⟩, by
      rw [← hl] at hx
      simpa using (List.mem_dedup.mp (by simpa using hx))⟩
  · rintro ⟨l, ⟨⟨pr, hpr, hl⟩, hx⟩⟩
    exact ⟨pr.2.dedup, ⟨pr, hpr, rfl⟩, List.mem_dedup.mpr (hl ▸ hx)⟩

theorem generate_dedupLists (db : DB) (cats : List (String × List String)) :
    ExceptFstEq (generate_schema_yaml db (dedupLists cats))
      (generate_schema_yaml db cats) := by
  unfold generate_schema_yaml
  exact exceptFstEq_map _ (genCats_dedup db cats [])

/-- Claim C9: duplicate occurrences of a name inside a category's list
never cause a reconciliation mismatch by themselves and do not change
the generated schema: the run behaves exactly as with the duplicates
removed (same mismatch lists, same schema document, same uncaught
exception if any); and each category's properties dict holds exactly
one entry per name. -/
theorem c9_duplicates_collapse (db : DB)
    (cats : List (String × List String)) :
    OutcomeEq (mainCompare db (dedupLists cats)) (mainCompare db cats) ∧
    ∀ r, generate_schema_yaml db cats = .ok r →
      ∀ q ∈ r.1.properties, (q.2.properties.map Prod.fst).Nodup := by
  constructor
  · have hmem : ∀ x, x ∈ yamlSettingsOf (dedupLists cats) ↔
        x ∈ yamlSettingsOf cats := fun x => mem_yamlSettingsOf_dedupLists
    have hcont : ∀ a, (yamlSettingsOf (dedupLists cats)).contains a =
        (yamlSettingsOf cats).contains a := by
      intro a
      cases hc : (yamlSettingsOf cats).contains a with
      | true => exact List.elem_iff.mpr ((hmem a).mpr (List.elem_iff.mp hc))
      | false =>
        cases hc' : (yamlSettingsOf (dedupLists cats)).contains a with
        | false => rfl
        | true =>
          rw [← hc]
          exact (List.elem_iff.mpr ((hmem a).mp (List.elem_iff.mp hc'))).symm
    have hd1 : pySorted ((yamlSettingsOf (dedupLists cats)).dedup.filter
          (fun x => ! (db.map Prod.fst).contains x)) =
        pySorted ((yamlSettingsOf cats).dedup.filter
          (fun x => ! (db.map Prod.fst).contains x)) := by
      apply pySorted_eq_of_nodup
      · exact (List.nodup_dedup _).filter _
      · exact (List.nodup_dedup _).filter _
      · intro x
        simp only [List.mem_filter, List.mem_dedup]
        rw [hmem x]
    have hpred : (fun x => ! (yamlSettingsOf (dedupLists cats)).contains x) =
        (fun x => ! (yamlSettingsOf cats).contains x) := by
      funext a
      rw [hcont a]
    simp only [mainCompare]
    rw [hd1, hpred]
    by_cases hcond :
        pySorted ((yamlSettingsOf cats).dedup.filter
          (fun x => ! (db.map Prod.fst).contains x)) = [] ∧
        pySorted ((db.map Prod.fst).dedup.filter
          (fun x => ! (yamlSettingsOf cats).contains x)) = []
    · rw [if_pos hcond, if_pos hcond]
      exact generate_dedupLists db cats
    · rw [if_neg hcond, if_neg hcond]
      exact ⟨rfl, rfl⟩
  · intro r hr q hq
    obtain ⟨ws, hg⟩ := generate_ok_props hr
    rcases genCats_mem_origin hg q hq with hin | ⟨l, w, hmem', hpc⟩
    · exact absurd hin (List.not_mem_nil q)
    · obtain ⟨ws', hps⟩ := processCategory_ok_props hpc
      exact (processSorted_keys_sorted (pySorted_sorted l) (by simp)
        (by simp) hps).imp (fun h => h.2)

theorem c9_witness :
    OutcomeEq (mainCompare dbW (dedupLists catsW)) (mainCompare dbW catsW) ∧
    ∀ r, generate_schema_yaml dbW catsW = .ok r →
      ∀ q ∈ r.1.properties, (q.2.properties.map Prod.fst).Nodup :=
  c9_duplicates_collapse dbW catsW
